import Mathlib

/-
Verification of the transcode-orchestration core of the
vite-video-compression application (src/src/App.tsx and the Dropzone
component) against its natural-language specification.

The embedding follows the source:
 - the derived backend naming rule and the human-readable size label are
   pure functions (App.tsx lines 55-60 and 71-72);
 - the submission / transcode flow is embedded as a small-step event
   semantics: the React state (videoFiles, loaded, activeCompressions)
   together with the ffmpeg in-memory storage forms an explicit state,
   and every `await` in `transcode` is a suspension point at which the
   cooperative scheduler may run another task (another submission's
   handler) or deliver an external event (a drop gesture, load
   completion).
-/

namespace VideoApp


/-! ## Derived naming (App.tsx lines 71-72)

Line 71 uses the source file name itself as the backend input name, and
line 72 builds the backend output name from the template
"compressed_" + first dot-separated component of the name + ".mp4".
The JavaScript expression `name.split(".")[0]` is the longest prefix of
`name` that contains no `"."` (the whole name when no `"."` occurs, and
`""` when the name starts with `"."`). -/

/-- Longest dot-free prefix of a string: the value of the JavaScript
expression `s.split(".")[0]`. -/
def splitFirst (s : String) : String :=
  String.mk (s.data.takeWhile (fun c => c != '.'))

/-- Backend input name for a source file name (App.tsx line 71). -/
def inputName (n : String) : String := n

/-- Backend output name for a source file name (App.tsx line 72). -/
def outputName (n : String) : String :=
  "compressed_" ++ splitFirst n ++ ".mp4"

/-! ## Size label (App.tsx lines 55-60)

`formatSize` computes `i = Math.floor(Math.log(bytes) / Math.log(1024))`
and renders `(bytes / Math.pow(1024, i)).toFixed(2)` followed by the
unit.  The JavaScript floating-point logarithm quotient is modelled by
the exact integer logarithm `Nat.log 1024`, and `toFixed(2)` by exact
rational rounding (round half away from zero, which for nonnegative
values is round half up); on the claim's concrete inputs the double
computation and the exact one agree.  For `bytes >= 1024^4` the
JavaScript array access `sizes[i]` yields `undefined`, which the
template literal renders as the text `"undefined"`. -/

/-- Unit labels used by `formatSize` (App.tsx line 56). -/
def sizes : List String := ["Bytes", "KB", "MB", "GB"]

/-- Exact model of JavaScript `(num / den).toFixed(2)` for nonnegative
exact inputs: round `100 * num / den` half up and print with two
decimal digits. -/
def toFixed2 (num den : Nat) : String :=
  let n := (num * 200 + den) / (2 * den)
  toString (n / 100) ++ "." ++
    (if n % 100 < 10 then "0" ++ toString (n % 100) else toString (n % 100))

/-- Human-readable size label (App.tsx lines 55-60). -/
def formatSize (bytes : Nat) : String :=
  if bytes = 0 then "0 Byte"
  else
    let i := Nat.log 1024 bytes
    toFixed2 bytes (1024 ^ i) ++ " " ++ sizes.getD i "undefined"

/-! ## Data model

A raw browser file is a name plus a byte count; a `VideoFile` is the
job record of App.tsx lines 7-16.  Identifiers are produced in the
source by `Math.random().toString(36).substring(7)`; the model draws
them from a fresh counter instead, realising the uniqueness the random
draw is meant to provide.  Preview handles (`URL.createObjectURL`
results) are likewise modelled as fresh numbers. -/

/-- Raw submitted file (the browser `File` at the interface used by the
app: a name and a size). -/
structure File where
  name : String
  size : Nat
deriving DecidableEq, Repr

/-- Job lifecycle states (the `status` union of App.tsx line 12). -/
inductive Status
  | pending
  | compressing
  | done
  | error
deriving DecidableEq, Repr

/-- Job record (the `VideoFile` interface of App.tsx lines 7-16). -/
structure VideoFile where
  id : Nat
  file : File
  originalSize : String
  compressedSize : String
  status : Status
  errorMessage : Option String
  originalUrl : Option Nat
  compressedUrl : Option Nat
deriving DecidableEq, Repr

/-- Suspension points of one `transcode` invocation: each constructor
names the `await` the task is parked on (App.tsx lines 87-177).
`loopNext` is the resumption of the caller's `for` loop after the
transcode promise settles (App.tsx lines 198-200). -/
inductive Phase
  | cleanupIn
  | cleanupOut
  | writeIn
  | execing
  | reading
  | delIn
  | delOut
  | loopNext
deriving DecidableEq, Repr

/-- One suspended `handleFileSelect` activation: the captured record of
the job whose `transcode` is in flight, the suspension point, and the
submission's remaining files (the rest of the `for` loop). -/
structure Task where
  current : VideoFile
  phase : Phase
  rest : List VideoFile
deriving DecidableEq, Repr

/-- Behaviour of the opaque ffmpeg backend for each job id: whether the
invocation produces the output blob, the descriptive text of the error
when it does not, the byte size of the produced blob, and whether
creating the compressed preview URL succeeds.  A real invocation can
fail either at `exec` or at the `readFile` of a missing output; both
reject the same enclosing `try`, so the model folds them into one
failure point. -/
structure Backend where
  execOk : Nat → Bool
  execMsg : Nat → String
  outSize : Nat → Nat
  previewOk : Nat → Bool

/-- Whole-application state: the React state of App.tsx lines 18-20,
the ffmpeg in-memory storage (set of stored names), the suspended
tasks, the status paragraph (`messageRef`), the console-error log, and
the freshness counters for ids and preview handles. -/
structure AppState where
  videoFiles : List VideoFile
  loaded : Bool
  activeCompressions : Int
  fs : List String
  tasks : List Task
  message : String
  consoleLog : List String
  nextId : Nat
  nextHandle : Nat
deriving DecidableEq, Repr

/-- Initial state (App.tsx lines 18-20: empty job list, `loaded` false,
no active compressions, fresh ffmpeg storage). -/
def initState : AppState :=
  { videoFiles := []
    loaded := false
    activeCompressions := 0
    fs := []
    tasks := []
    message := ""
    consoleLog := []
    nextId := 0
    nextHandle := 0 }

/-! ## ffmpeg storage operations

`writeFile` stores a blob under a name; `deleteFile` removes it and, as
the defensive `try`/`catch` around the pre-run cleanup (App.tsx lines
89-92) evidences, rejects when no blob of that name exists. -/

/-- Store a name in the ffmpeg storage (`ffmpeg.writeFile`). -/
def fsWrite (fs : List String) (n : String) : List String :=
  if n ∈ fs then fs else fs ++ [n]

/-- Remove a name from the ffmpeg storage (`ffmpeg.deleteFile`);
`none` models the rejected promise when the name is absent. -/
def fsDelete (fs : List String) (n : String) : Option (List String) :=
  if n ∈ fs then some (fs.erase n) else none

/-! ## State updates performed by `setVideoFiles` calls -/

/-- App.tsx lines 63-67: mark the job with the given id `compressing`. -/
def markCompressing (jobs : List VideoFile) (i : Nat) : List VideoFile :=
  jobs.map fun f => if f.id = i then { f with status := .compressing } else f

/-- App.tsx lines 150-160 and 168-174: mark the job with the given id
`error` with a message.  The spread keeps every other field, including
a previously assigned `compressedUrl`. -/
def markError (jobs : List VideoFile) (i : Nat) (msg : String) : List VideoFile :=
  jobs.map fun f =>
    if f.id = i then { f with status := .error, errorMessage := some msg } else f

/-- App.tsx lines 136-147: mark the job with the given id `done` and
assign its compressed size label and preview handle in the same update. -/
def markDone (jobs : List VideoFile) (i : Nat) (size : String) (url : Nat) :
    List VideoFile :=
  jobs.map fun f =>
    if f.id = i then
      { f with status := .done, compressedSize := size, compressedUrl := some url }
    else f

/-- App.tsx lines 187-194: build the job records for a submission, with
ids and original-preview handles drawn from the freshness counters. -/
def mkJobs (nid nh : Nat) : List File → List VideoFile
  | [] => []
  | f :: fs =>
      { id := nid
        file := f
        originalSize := formatSize f.size
        compressedSize := ""
        status := .pending
        errorMessage := none
        originalUrl := some nh
        compressedUrl := none } :: mkJobs (nid + 1) (nh + 1) fs

/-! ## Event semantics -/

/-- `handleFileSelect` (App.tsx lines 180-201) up to the first
suspension: if `loaded` is set the submission is dropped with a status
message; otherwise the job records are created and appended, and the
first `transcode` runs synchronously to its first `await` - marking
the first job `compressing`, bumping `activeCompressions`, and parking
at the pre-run cleanup. -/
def handleFileSelect (s : AppState) (files : List File) : AppState :=
  if s.loaded then { s with message := "Please wait while FFmpeg loads..." }
  else
    match mkJobs s.nextId s.nextHandle files with
    | [] => s
    | v :: rest =>
        { s with
          videoFiles := markCompressing (s.videoFiles ++ (v :: rest)) v.id
          activeCompressions := s.activeCompressions + 1
          tasks := s.tasks ++ [⟨v, .cleanupIn, rest⟩]
          nextId := s.nextId + files.length
          nextHandle := s.nextHandle + files.length }

/-- Per-file size ceiling the app passes to the Dropzone
(App.tsx line 215: `maxSize={100 * 1024 * 1024}`). -/
def maxBytes : Nat := 100 * 1024 * 1024

/-- A drop (or file-picker) gesture as the Dropzone component and the
App wire it up: an empty selection is ignored; if any file exceeds the
ceiling the whole submission is rejected with a console error before
any job exists (Dropzone `handleDrop`/`handleFileSelect`); otherwise
the selection reaches `handleFileSelect` unless `loaded` is set
(App.tsx line 212: `!loaded && handleFileSelect(files)`). -/
def handleDrop (s : AppState) (files : List File) : AppState :=
  if files.length = 0 then s
  else if files.any (fun f => decide (maxBytes < f.size)) then
    { s with consoleLog := s.consoleLog ++ ["File size exceeds limit"] }
  else if s.loaded then s
  else handleFileSelect s files

/-- Advance the i-th suspended task by one step: perform the effect of
the `await` it is parked on together with the synchronous code up to
the next suspension point (App.tsx lines 87-177 and the caller's loop
at lines 198-200). -/
def stepTask (b : Backend) (s : AppState) (i : Nat) : AppState :=
  match s.tasks[i]? with
  | none => s
  | some t =>
    let inF := t.current.file.name
    let outF := outputName t.current.file.name
    match t.phase with
    | .cleanupIn =>
        -- line 90: defensive `await ffmpeg.deleteFile(inputFile)`; a
        -- rejection jumps to the inner catch, skipping line 91.
        match fsDelete s.fs inF with
        | some fs2 =>
            { s with fs := fs2, tasks := s.tasks.set i ⟨t.current, .cleanupOut, t.rest⟩ }
        | none => { s with tasks := s.tasks.set i ⟨t.current, .writeIn, t.rest⟩ }
    | .cleanupOut =>
        -- line 91: defensive `await ffmpeg.deleteFile(outputFile)`;
        -- either way execution proceeds to the write.
        match fsDelete s.fs outF with
        | some fs2 =>
            { s with fs := fs2, tasks := s.tasks.set i ⟨t.current, .writeIn, t.rest⟩ }
        | none => { s with tasks := s.tasks.set i ⟨t.current, .writeIn, t.rest⟩ }
    | .writeIn =>
        -- line 94: `await ffmpeg.writeFile(inputFile, ...)` (the
        -- original-preview URL of lines 97-104 only touches a DOM ref).
        { s with fs := fsWrite s.fs inF
                 tasks := s.tasks.set i ⟨t.current, .execing, t.rest⟩ }
    | .execing =>
        -- lines 106-128: the backend invocation; on failure the outer
        -- catch (lines 166-174) marks the job `error` with the error's
        -- message and the finally (line 176) releases the slot.
        if b.execOk t.current.id then
          { s with fs := fsWrite s.fs outF
                   tasks := s.tasks.set i ⟨t.current, .reading, t.rest⟩ }
        else
          { s with
            videoFiles := markError s.videoFiles t.current.id (b.execMsg t.current.id)
            activeCompressions := s.activeCompressions - 1
            tasks := s.tasks.set i ⟨t.current, .loopNext, t.rest⟩ }
    | .reading =>
        -- line 130: `await ffmpeg.readFile(outputFile)`, then the blob
        -- and preview URL (lines 131-161) synchronously.
        if outF ∈ s.fs then
          if b.previewOk t.current.id then
            { s with
              videoFiles := markDone s.videoFiles t.current.id
                  (formatSize (b.outSize t.current.id)) s.nextHandle
              nextHandle := s.nextHandle + 1
              tasks := s.tasks.set i ⟨t.current, .delIn, t.rest⟩ }
          else
            { s with
              videoFiles := markError s.videoFiles t.current.id
                  "Error creating compressed video preview"
              tasks := s.tasks.set i ⟨t.current, .delIn, t.rest⟩ }
        else
          { s with
            videoFiles := markError s.videoFiles t.current.id "FS error"
            activeCompressions := s.activeCompressions - 1
            tasks := s.tasks.set i ⟨t.current, .loopNext, t.rest⟩ }
    | .delIn =>
        -- line 164: `await ffmpeg.deleteFile(inputFile)`, not guarded:
        -- a rejection reaches the outer catch.
        match fsDelete s.fs inF with
        | some fs2 =>
            { s with fs := fs2, tasks := s.tasks.set i ⟨t.current, .delOut, t.rest⟩ }
        | none =>
            { s with
              videoFiles := markError s.videoFiles t.current.id "FS error"
              activeCompressions := s.activeCompressions - 1
              tasks := s.tasks.set i ⟨t.current, .loopNext, t.rest⟩ }
    | .delOut =>
        -- line 165: `await ffmpeg.deleteFile(outputFile)`, then the
        -- finally releases the slot and the transcode promise settles.
        match fsDelete s.fs outF with
        | some fs2 =>
            { s with fs := fs2
                     activeCompressions := s.activeCompressions - 1
                     tasks := s.tasks.set i ⟨t.current, .loopNext, t.rest⟩ }
        | none =>
            { s with
              videoFiles := markError s.videoFiles t.current.id "FS error"
              activeCompressions := s.activeCompressions - 1
              tasks := s.tasks.set i ⟨t.current, .loopNext, t.rest⟩ }
    | .loopNext =>
        -- lines 198-200: the caller's loop either starts the next
        -- file's transcode (synchronously to its first await) or ends.
        match t.rest with
        | [] => { s with tasks := s.tasks.eraseIdx i }
        | v :: vs =>
            { s with
              videoFiles := markCompressing s.videoFiles v.id
              activeCompressions := s.activeCompressions + 1
              tasks := s.tasks.set i ⟨v, .cleanupIn, vs⟩ }

/-- External and scheduler events of one session. -/
inductive Ev
  | loadStart
  | loadDone
  | drop (files : List File)
  | tick (i : Nat)

/-- Apply one event: `load()` sets `loaded` at entry (App.tsx line 27)
and clears it when the engine finishes loading (line 51); a drop
gesture runs the Dropzone handler; a tick resumes a suspended task. -/
def applyEv (b : Backend) (s : AppState) : Ev → AppState
  | .loadStart => { s with loaded := true }
  | .loadDone => { s with loaded := false }
  | .drop files => handleDrop s files
  | .tick i => stepTask b s i

/-- Apply a sequence of events from a state. -/
def applyTrace (b : Backend) : AppState → List Ev → AppState
  | s, [] => s
  | s, e :: es => applyTrace b (applyEv b s e) es

/-- Run the first suspended task for n steps (the schedule of a session
in which submissions never overlap). -/
def steps (b : Backend) : AppState → Nat → AppState
  | s, 0 => s
  | s, n + 1 => steps b (applyEv b s (.tick 0)) n

/-! ## Serial sessions and their invariant

A serial session is one in which a new drop gesture only arrives when
no transcode work is suspended (submissions never overlap).  The
invariant below holds at every instant of such a session; in
particular at most one job is ever `compressing`, and a job carries a
result handle exactly when it is `done`. -/

/-- Phases during which the current job is still `compressing` (before
the `setVideoFiles` of the read step). -/
def earlyPhase (p : Phase) : Prop :=
  p = .cleanupIn ∨ p = .cleanupOut ∨ p = .writeIn ∨ p = .execing ∨ p = .reading

/-- Phases after the current job has reached a terminal state. -/
def latePhase (p : Phase) : Prop :=
  p = .delIn ∨ p = .delOut ∨ p = .loopNext

/-- Invariant of serial sessions. -/
structure SerialInv (s : AppState) : Prop where
  oneTask : s.tasks.length ≤ 1
  idsNodup : (s.videoFiles.map VideoFile.id).Nodup
  idsLt : ∀ j ∈ s.videoFiles, j.id < s.nextId
  urlIff : ∀ j ∈ s.videoFiles, j.compressedUrl.isSome = true ↔ j.status = .done
  comprCur : ∀ j ∈ s.videoFiles, j.status = .compressing →
    ∃ t ∈ s.tasks, j.id = t.current.id ∧ earlyPhase t.phase
  curStatus : ∀ t ∈ s.tasks, ∀ j ∈ s.videoFiles, j.id = t.current.id →
    (earlyPhase t.phase → j.status = .compressing) ∧
    (latePhase t.phase → j.status = .done ∨ j.status = .error)
  taskNodup : ∀ t ∈ s.tasks, (t.current.id :: t.rest.map VideoFile.id).Nodup
  restPending : ∀ t ∈ s.tasks, ∀ v ∈ t.rest, ∀ j ∈ s.videoFiles,
    j.id = v.id → j.status = .pending
  fsIn : ∀ t ∈ s.tasks,
    (t.phase = .execing ∨ t.phase = .reading ∨ t.phase = .delIn) →
    t.current.file.name ∈ s.fs
  fsOut : ∀ t ∈ s.tasks,
    (t.phase = .reading ∨ t.phase = .delIn ∨ t.phase = .delOut) →
    outputName t.current.file.name ∈ s.fs

/-- States of a serial session: drop gestures are only delivered when
no task is suspended. -/
inductive SerialReach (b : Backend) : AppState → Prop
  | init : SerialReach b initState
  | loadStart (s : AppState) : SerialReach b s →
      SerialReach b (applyEv b s .loadStart)
  | loadDone (s : AppState) : SerialReach b s →
      SerialReach b (applyEv b s .loadDone)
  | drop (s : AppState) (files : List File) (h : s.tasks = []) :
      SerialReach b s → SerialReach b (applyEv b s (.drop files))
  | tick (s : AppState) (i : Nat) : SerialReach b s →
      SerialReach b (applyEv b s (.tick i))

/-- A backend for which every invocation and preview creation
succeeds. -/
def bOK : Backend := ⟨fun _ => true, fun _ => "boom", fun _ => 999, fun _ => true⟩

/-- A backend for which every invocation fails with message "boom". -/
def bFail : Backend := ⟨fun _ => false, fun _ => "boom", fun _ => 999, fun _ => true⟩

/-- A backend whose invocations succeed but whose compressed-preview
creation fails. -/
def bNoPrev : Backend := ⟨fun _ => true, fun _ => "boom", fun _ => 999, fun _ => false⟩

/-- A backend that fails the invocation of job 0 and succeeds on every
other job. -/
def bFailFirst : Backend :=
  ⟨fun i => decide (i ≠ 0), fun _ => "boom", fun _ => 999, fun _ => true⟩

/-- A small concrete video file. -/
def vA : File := ⟨"v.mp4", 5⟩

/-- A second small concrete video file with a different name. -/
def vB : File := ⟨"w.mp4", 6⟩

/-! ## Theorems -/

/-! ### Facts about the naming rule -/

theorem takeWhile_append_of_all {p : Char → Bool} :
    ∀ (l₁ l₂ : List Char), (∀ a ∈ l₁, p a = true) →
      (l₁ ++ l₂).takeWhile p = l₁ ++ l₂.takeWhile p := by
  intro l₁ l₂ h
  induction l₁ with
  | nil => simp
  | cons a l ih =>
      have ha : p a = true := h a (by simp)
      simp only [List.cons_append, List.takeWhile_cons, ha, if_true]
      rw [ih (fun b hb => h b (by simp [hb]))]

theorem mem_takeWhile_sat {p : Char → Bool} :
    ∀ (l : List Char), ∀ a ∈ l.takeWhile p, p a = true := by
  intro l
  induction l with
  | nil => simp
  | cons b l ih =>
      intro a ha
      by_cases hb : p b = true
      · simp only [List.takeWhile_cons, hb, if_true, List.mem_cons] at ha
        rcases ha with rfl | ha
        · exact hb
        · exact ih a ha
      · simp only [List.takeWhile_cons, if_neg hb] at ha
        exact absurd ha (List.not_mem_nil a)

/-- The derived output name is never equal to the source name, so the
backend input and output storage names of one job never collide. -/
theorem outputName_ne (n : String) : outputName n ≠ n := by
  intro h
  have hdata : (outputName n).data = n.data := congrArg String.data h
  have hout : (outputName n).data =
      "compressed_".data ++ (splitFirst n).data ++ ".mp4".data := by
    simp [outputName, String.data_append]
  set p : Char → Bool := fun c => c != '.' with hp
  have hB : (splitFirst n).data = n.data.takeWhile p := rfl
  have hallpre : ∀ a ∈ "compressed_".data, p a = true := by decide
  have hallB : ∀ a ∈ n.data.takeWhile p, p a = true := mem_takeWhile_sat _
  have htw : n.data.takeWhile p =
      "compressed_".data ++ n.data.takeWhile p := by
    conv_lhs => rw [← hdata, hout, hB]
    rw [List.append_assoc, takeWhile_append_of_all _ _ hallpre,
        takeWhile_append_of_all _ _ hallB]
    have : (".mp4".data).takeWhile p = [] := by decide
    rw [this, List.append_nil]
  have hlen := congrArg List.length htw
  simp [List.length_append] at hlen
  omega

theorem splitFirst_no_dot (n : String) (h : ('.' : Char) ∉ n.data) :
    splitFirst n = n := by
  cases n with
  | mk d =>
      show String.mk (d.takeWhile _) = String.mk d
      congr 1
      apply List.takeWhile_eq_self_iff.mpr
      intro a ha
      have : a ≠ '.' := by
        intro hEq; exact h (hEq ▸ ha)
      simp [this]

theorem splitFirst_dotted (xs ys : List Char) (h : ∀ a ∈ xs, a ≠ '.') :
    splitFirst (String.mk (xs ++ '.' :: ys)) = String.mk xs := by
  show String.mk ((xs ++ '.' :: ys).takeWhile _) = String.mk xs
  congr 1
  rw [takeWhile_append_of_all xs ('.' :: ys)
      (fun a ha => by simp [h a ha])]
  simp

/-- Claim C6: the backend input name used for a source name N is exactly
N, and the backend output name is exactly "compressed_" followed by N
truncated at its first "." followed by ".mp4"; in particular "clip.mov"
yields "compressed_clip.mp4" and "a.b.mov" yields "compressed_a.mp4". -/
theorem derived_naming_rule :
    (∀ n : String, inputName n = n) ∧
    (∀ (xs ys : List Char), (∀ a ∈ xs, a ≠ '.') →
        outputName (String.mk (xs ++ '.' :: ys)) =
          "compressed_" ++ String.mk xs ++ ".mp4") ∧
    outputName "clip.mov" = "compressed_clip.mp4" ∧
    outputName "a.b.mov" = "compressed_a.mp4" := by
  refine ⟨fun _ => rfl, ?_, rfl, rfl⟩
  intro xs ys h
  unfold outputName
  rw [splitFirst_dotted xs ys h]

/-- Claim C6 witness: the truncation rule of `derived_naming_rule`
evaluated at the concrete source name "clip.mov". -/
theorem derived_naming_rule_witness :
    outputName (String.mk ("clip".data ++ '.' :: "mov".data)) =
      "compressed_" ++ String.mk "clip".data ++ ".mp4" :=
  derived_naming_rule.2.1 "clip".data "mov".data (by decide)

/-- Claim C10: for a source name with no "." the output name is
"compressed_" plus the full name plus ".mp4" (e.g. "clip" yields
"compressed_clip.mp4"), and for a source name whose first character is
"." the output name is exactly "compressed_.mp4" regardless of the rest
of the name. -/
theorem derived_naming_edge_cases :
    (∀ n : String, ('.' : Char) ∉ n.data →
        outputName n = "compressed_" ++ n ++ ".mp4") ∧
    (∀ s : String, outputName (String.mk ('.' :: s.data)) = "compressed_.mp4") ∧
    outputName "clip" = "compressed_clip.mp4" ∧
    outputName ".hidden.mov" = "compressed_.mp4" := by
  refine ⟨?_, ?_, rfl, rfl⟩
  · intro n h
    unfold outputName
    rw [splitFirst_no_dot n h]
  · intro s
    rfl

/-- Claim C10 witness: `derived_naming_edge_cases` evaluated at the
concrete dot-free source name "video" and at the concrete dot-initial
source name ".cfg". -/
theorem derived_naming_edge_cases_witness :
    outputName "video" = "compressed_" ++ "video" ++ ".mp4" ∧
    outputName (String.mk ('.' :: "cfg".data)) = "compressed_.mp4" :=
  ⟨derived_naming_edge_cases.1 "video" (by decide),
   derived_naming_edge_cases.2.1 "cfg"⟩

/-- Claim C7: the size-label function uses base-1024 with units
Bytes/KB/MB/GB and two-decimal rounding, and renders zero bytes as the
literal "0 Byte"; in particular 0 ↦ "0 Byte", 1024 ↦ "1.00 KB",
1536 ↦ "1.50 KB", 1048576 ↦ "1.00 MB".  The general conjunct makes the
base-1024 unit selection explicit on the whole KB range. -/
theorem size_label_formatting :
    formatSize 0 = "0 Byte" ∧
    formatSize 1024 = "1.00 KB" ∧
    formatSize 1536 = "1.50 KB" ∧
    formatSize 1048576 = "1.00 MB" ∧
    (∀ n : Nat, 1024 ≤ n → n < 1048576 →
        formatSize n = toFixed2 n 1024 ++ " " ++ "KB") := by
  have hpow : (1024 : Nat) ^ 2 = 1048576 := by norm_num
  have hlogKB : ∀ n : Nat, 1024 ≤ n → n < 1048576 → Nat.log 1024 n = 1 := by
    intro n h1 h2
    apply Nat.log_eq_of_pow_le_of_lt_pow
    · simpa using h1
    · omega
  have hgen : ∀ n : Nat, 1024 ≤ n → n < 1048576 →
      formatSize n = toFixed2 n 1024 ++ " " ++ "KB" := by
    intro n h1 h2
    have hn0 : n ≠ 0 := by omega
    simp [formatSize, hn0, hlogKB n h1 h2, sizes]
  refine ⟨rfl, ?_, ?_, ?_, hgen⟩
  · rw [hgen 1024 (by norm_num) (by norm_num)]; decide
  · rw [hgen 1536 (by norm_num) (by norm_num)]; decide
  · have hlog : Nat.log 1024 1048576 = 2 := by
      rw [← hpow]
      exact Nat.log_pow (by norm_num) 2
    simp [formatSize, hlog, sizes]
    decide

/-- Claim C7 witness: the KB-range conjunct of `size_label_formatting`
evaluated at 1536 bytes. -/
theorem size_label_formatting_witness :
    formatSize 1536 = toFixed2 1536 1024 ++ " " ++ "KB" :=
  size_label_formatting.2.2.2.2 1536 (by norm_num) (by norm_num)

/-! ## Single-step and serial-run lemmas -/

theorem mem_fsWrite_self (l : List String) (n : String) : n ∈ fsWrite l n := by
  by_cases h : n ∈ l <;> simp [fsWrite, h]

theorem mem_fsWrite (l : List String) (a n : String) (h : a ∈ l) :
    a ∈ fsWrite l n := by
  by_cases hm : n ∈ l <;> simp [fsWrite, hm, h]

theorem steps_succ (b : Backend) (s : AppState) (n : Nat) :
    steps b s (n + 1) = steps b (applyEv b s (.tick 0)) n := rfl

theorem steps_add (b : Backend) (s : AppState) (m n : Nat) :
    steps b s (m + n) = steps b (steps b s m) n := by
  induction m generalizing s with
  | zero => rw [Nat.zero_add]; rfl
  | succ k ih =>
      have : k + 1 + n = (k + n) + 1 := by omega
      rw [this, steps_succ, steps_succ, ih]

theorem tick_no_task (b : Backend) (s : AppState) (h : s.tasks = []) :
    applyEv b s (.tick 0) = s := by
  simp [applyEv, stepTask, h]

theorem steps_no_task (b : Backend) (s : AppState) (h : s.tasks = []) :
    ∀ n, steps b s n = s := by
  intro n
  induction n with
  | zero => rfl
  | succ k ih => rw [steps_succ, tick_no_task b s h, ih]

theorem tick_cleanupIn_absent (b : Backend) (s : AppState) (v : VideoFile)
    (r : List VideoFile) (h : s.tasks = [⟨v, .cleanupIn, r⟩])
    (hin : v.file.name ∉ s.fs) :
    applyEv b s (.tick 0) = { s with tasks := [⟨v, .writeIn, r⟩] } := by
  simp [applyEv, stepTask, h, fsDelete, hin]

theorem tick_cleanupIn_present (b : Backend) (s : AppState) (v : VideoFile)
    (r : List VideoFile) (h : s.tasks = [⟨v, .cleanupIn, r⟩])
    (hin : v.file.name ∈ s.fs) :
    applyEv b s (.tick 0) =
      { s with fs := s.fs.erase v.file.name
               tasks := [⟨v, .cleanupOut, r⟩] } := by
  simp [applyEv, stepTask, h, fsDelete, hin]

theorem tick_cleanupOut_absent (b : Backend) (s : AppState) (v : VideoFile)
    (r : List VideoFile) (h : s.tasks = [⟨v, .cleanupOut, r⟩])
    (hout : outputName v.file.name ∉ s.fs) :
    applyEv b s (.tick 0) = { s with tasks := [⟨v, .writeIn, r⟩] } := by
  simp [applyEv, stepTask, h, fsDelete, hout]

theorem tick_writeIn (b : Backend) (s : AppState) (v : VideoFile)
    (r : List VideoFile) (h : s.tasks = [⟨v, .writeIn, r⟩]) :
    applyEv b s (.tick 0) =
      { s with fs := fsWrite s.fs v.file.name
               tasks := [⟨v, .execing, r⟩] } := by
  simp [applyEv, stepTask, h]

theorem tick_exec_ok (b : Backend) (s : AppState) (v : VideoFile)
    (r : List VideoFile) (h : s.tasks = [⟨v, .execing, r⟩])
    (hok : b.execOk v.id = true) :
    applyEv b s (.tick 0) =
      { s with fs := fsWrite s.fs (outputName v.file.name)
               tasks := [⟨v, .reading, r⟩] } := by
  simp [applyEv, stepTask, h, hok]

theorem tick_exec_fail (b : Backend) (s : AppState) (v : VideoFile)
    (r : List VideoFile) (h : s.tasks = [⟨v, .execing, r⟩])
    (hok : b.execOk v.id = false) :
    applyEv b s (.tick 0) =
      { s with videoFiles := markError s.videoFiles v.id (b.execMsg v.id)
               activeCompressions := s.activeCompressions - 1
               tasks := [⟨v, .loopNext, r⟩] } := by
  simp [applyEv, stepTask, h, hok]

theorem tick_reading_preview (b : Backend) (s : AppState) (v : VideoFile)
    (r : List VideoFile) (h : s.tasks = [⟨v, .reading, r⟩])
    (hmem : outputName v.file.name ∈ s.fs) (hprev : b.previewOk v.id = true) :
    applyEv b s (.tick 0) =
      { s with
        videoFiles := markDone s.videoFiles v.id
            (formatSize (b.outSize v.id)) s.nextHandle
        nextHandle := s.nextHandle + 1
        tasks := [⟨v, .delIn, r⟩] } := by
  simp [applyEv, stepTask, h, hmem, hprev]

theorem tick_reading_noPreview (b : Backend) (s : AppState) (v : VideoFile)
    (r : List VideoFile) (h : s.tasks = [⟨v, .reading, r⟩])
    (hmem : outputName v.file.name ∈ s.fs) (hprev : b.previewOk v.id = false) :
    applyEv b s (.tick 0) =
      { s with
        videoFiles := markError s.videoFiles v.id
            "Error creating compressed video preview"
        tasks := [⟨v, .delIn, r⟩] } := by
  simp [applyEv, stepTask, h, hmem, hprev]

theorem tick_delIn (b : Backend) (s : AppState) (v : VideoFile)
    (r : List VideoFile) (h : s.tasks = [⟨v, .delIn, r⟩])
    (hmem : v.file.name ∈ s.fs) :
    applyEv b s (.tick 0) =
      { s with fs := s.fs.erase v.file.name
               tasks := [⟨v, .delOut, r⟩] } := by
  simp [applyEv, stepTask, h, fsDelete, hmem]

theorem tick_delOut (b : Backend) (s : AppState) (v : VideoFile)
    (r : List VideoFile) (h : s.tasks = [⟨v, .delOut, r⟩])
    (hmem : outputName v.file.name ∈ s.fs) :
    applyEv b s (.tick 0) =
      { s with fs := s.fs.erase (outputName v.file.name)
               activeCompressions := s.activeCompressions - 1
               tasks := [⟨v, .loopNext, r⟩] } := by
  simp [applyEv, stepTask, h, fsDelete, hmem]

theorem tick_loop_done (b : Backend) (s : AppState) (v : VideoFile)
    (h : s.tasks = [⟨v, .loopNext, []⟩]) :
    applyEv b s (.tick 0) = { s with tasks := [] } := by
  simp [applyEv, stepTask, h]

theorem tick_loop_next (b : Backend) (s : AppState) (v v' : VideoFile)
    (vs : List VideoFile) (h : s.tasks = [⟨v, .loopNext, v' :: vs⟩]) :
    applyEv b s (.tick 0) =
      { s with videoFiles := markCompressing s.videoFiles v'.id
               activeCompressions := s.activeCompressions + 1
               tasks := [⟨v', .cleanupIn, vs⟩] } := by
  simp [applyEv, stepTask, h]

/-- A serial run of one transcode from the `writeFile` suspension point
when the backend invocation and the preview creation both succeed: five
steps later the job is `done` with its size label and preview handle
set, both backend storage names have been purged relative to what the
write and the invocation added, the slot is released, and the task is
parked on the caller's loop. -/
theorem run_success_preview (b : Backend) (s : AppState) (v : VideoFile)
    (r : List VideoFile) (h : s.tasks = [⟨v, .writeIn, r⟩])
    (hok : b.execOk v.id = true) (hprev : b.previewOk v.id = true) :
    steps b s 5 =
      { s with
        videoFiles := markDone s.videoFiles v.id
            (formatSize (b.outSize v.id)) s.nextHandle
        fs := ((fsWrite (fsWrite s.fs v.file.name)
                (outputName v.file.name)).erase v.file.name).erase
              (outputName v.file.name)
        nextHandle := s.nextHandle + 1
        activeCompressions := s.activeCompressions - 1
        tasks := [⟨v, .loopNext, r⟩] } := by
  calc steps b s 5
      = steps b { s with fs := fsWrite s.fs v.file.name
                         tasks := [⟨v, .execing, r⟩] } 4 := by
        rw [steps_succ, tick_writeIn b s v r h]
    _ = steps b { s with
          fs := fsWrite (fsWrite s.fs v.file.name) (outputName v.file.name)
          tasks := [⟨v, .reading, r⟩] } 3 := by
        rw [steps_succ, tick_exec_ok b _ v r rfl hok]
    _ = steps b { s with
          videoFiles := markDone s.videoFiles v.id
              (formatSize (b.outSize v.id)) s.nextHandle
          fs := fsWrite (fsWrite s.fs v.file.name) (outputName v.file.name)
          nextHandle := s.nextHandle + 1
          tasks := [⟨v, .delIn, r⟩] } 2 := by
        rw [steps_succ, tick_reading_preview b _ v r rfl
          (mem_fsWrite_self (fsWrite s.fs v.file.name) (outputName v.file.name))
          hprev]
    _ = steps b { s with
          videoFiles := markDone s.videoFiles v.id
              (formatSize (b.outSize v.id)) s.nextHandle
          fs := (fsWrite (fsWrite s.fs v.file.name)
                  (outputName v.file.name)).erase v.file.name
          nextHandle := s.nextHandle + 1
          tasks := [⟨v, .delOut, r⟩] } 1 := by
        rw [steps_succ, tick_delIn b _ v r rfl
          (mem_fsWrite (fsWrite s.fs v.file.name) v.file.name
            (outputName v.file.name) (mem_fsWrite_self s.fs v.file.name))]
    _ = { s with
          videoFiles := markDone s.videoFiles v.id
              (formatSize (b.outSize v.id)) s.nextHandle
          fs := ((fsWrite (fsWrite s.fs v.file.name)
                  (outputName v.file.name)).erase v.file.name).erase
                (outputName v.file.name)
          nextHandle := s.nextHandle + 1
          activeCompressions := s.activeCompressions - 1
          tasks := [⟨v, .loopNext, r⟩] } := by
        rw [steps_succ, tick_delOut b _ v r rfl
          ((List.mem_erase_of_ne (outputName_ne v.file.name)).mpr
            (mem_fsWrite_self (fsWrite s.fs v.file.name)
              (outputName v.file.name)))]
        rfl

/-- A serial run of one transcode from the `writeFile` suspension point
when the backend invocation succeeds but the preview creation fails:
five steps later the job is `error` with the preview-failure message,
both backend storage names have still been purged, the slot is
released, and the task is parked on the caller's loop. -/
theorem run_success_noPreview (b : Backend) (s : AppState) (v : VideoFile)
    (r : List VideoFile) (h : s.tasks = [⟨v, .writeIn, r⟩])
    (hok : b.execOk v.id = true) (hprev : b.previewOk v.id = false) :
    steps b s 5 =
      { s with
        videoFiles := markError s.videoFiles v.id
            "Error creating compressed video preview"
        fs := ((fsWrite (fsWrite s.fs v.file.name)
                (outputName v.file.name)).erase v.file.name).erase
              (outputName v.file.name)
        activeCompressions := s.activeCompressions - 1
        tasks := [⟨v, .loopNext, r⟩] } := by
  calc steps b s 5
      = steps b { s with fs := fsWrite s.fs v.file.name
                         tasks := [⟨v, .execing, r⟩] } 4 := by
        rw [steps_succ, tick_writeIn b s v r h]
    _ = steps b { s with
          fs := fsWrite (fsWrite s.fs v.file.name) (outputName v.file.name)
          tasks := [⟨v, .reading, r⟩] } 3 := by
        rw [steps_succ, tick_exec_ok b _ v r rfl hok]
    _ = steps b { s with
          videoFiles := markError s.videoFiles v.id
              "Error creating compressed video preview"
          fs := fsWrite (fsWrite s.fs v.file.name) (outputName v.file.name)
          tasks := [⟨v, .delIn, r⟩] } 2 := by
        rw [steps_succ, tick_reading_noPreview b _ v r rfl
          (mem_fsWrite_self (fsWrite s.fs v.file.name) (outputName v.file.name))
          hprev]
    _ = steps b { s with
          videoFiles := markError s.videoFiles v.id
              "Error creating compressed video preview"
          fs := (fsWrite (fsWrite s.fs v.file.name)
                  (outputName v.file.name)).erase v.file.name
          tasks := [⟨v, .delOut, r⟩] } 1 := by
        rw [steps_succ, tick_delIn b _ v r rfl
          (mem_fsWrite (fsWrite s.fs v.file.name) v.file.name
            (outputName v.file.name) (mem_fsWrite_self s.fs v.file.name))]
    _ = { s with
          videoFiles := markError s.videoFiles v.id
              "Error creating compressed video preview"
          fs := ((fsWrite (fsWrite s.fs v.file.name)
                  (outputName v.file.name)).erase v.file.name).erase
                (outputName v.file.name)
          activeCompressions := s.activeCompressions - 1
          tasks := [⟨v, .loopNext, r⟩] } := by
        rw [steps_succ, tick_delOut b _ v r rfl
          ((List.mem_erase_of_ne (outputName_ne v.file.name)).mpr
            (mem_fsWrite_self (fsWrite s.fs v.file.name)
              (outputName v.file.name)))]
        rfl

/-- A serial run of one transcode from its initial suspension point,
over storage that does not hold the job's input name, when the backend
invocation fails: three steps later the job is `error` with the
backend's message, the input name written for the invocation is still
in the backend storage (the in-`try` cleanup was skipped), the slot is
released, and the task is parked on the caller's loop. -/
theorem run_fail_fresh (b : Backend) (s : AppState) (v : VideoFile)
    (r : List VideoFile) (h : s.tasks = [⟨v, .cleanupIn, r⟩])
    (hin : v.file.name ∉ s.fs) (hok : b.execOk v.id = false) :
    steps b s 3 =
      { s with
        videoFiles := markError s.videoFiles v.id (b.execMsg v.id)
        fs := fsWrite s.fs v.file.name
        activeCompressions := s.activeCompressions - 1
        tasks := [⟨v, .loopNext, r⟩] } := by
  calc steps b s 3
      = steps b { s with tasks := [⟨v, .writeIn, r⟩] } 2 := by
        rw [steps_succ, tick_cleanupIn_absent b s v r h hin]
    _ = steps b { s with fs := fsWrite s.fs v.file.name
                         tasks := [⟨v, .execing, r⟩] } 1 := by
        rw [steps_succ, tick_writeIn b _ v r rfl]
    _ = { s with
          videoFiles := markError s.videoFiles v.id (b.execMsg v.id)
          fs := fsWrite s.fs v.file.name
          activeCompressions := s.activeCompressions - 1
          tasks := [⟨v, .loopNext, r⟩] } := by
        rw [steps_succ, tick_exec_fail b _ v r rfl hok]
        rfl

theorem steps_one (b : Backend) (s : AppState) :
    steps b s 1 = applyEv b s (.tick 0) := rfl

theorem markCompressing_map_id (l : List VideoFile) (i : Nat) :
    (markCompressing l i).map VideoFile.id = l.map VideoFile.id := by
  induction l with
  | nil => rfl
  | cons a l ih =>
      simp only [markCompressing, List.map_cons] at ih ⊢
      by_cases h : a.id = i <;> simp [h, ih]

theorem markError_map_id (l : List VideoFile) (i : Nat) (m : String) :
    (markError l i m).map VideoFile.id = l.map VideoFile.id := by
  induction l with
  | nil => rfl
  | cons a l ih =>
      simp only [markError, List.map_cons] at ih ⊢
      by_cases h : a.id = i <;> simp [h, ih]

theorem markDone_map_id (l : List VideoFile) (i : Nat) (lbl : String) (u : Nat) :
    (markDone l i lbl u).map VideoFile.id = l.map VideoFile.id := by
  induction l with
  | nil => rfl
  | cons a l ih =>
      simp only [markDone, List.map_cons] at ih ⊢
      by_cases h : a.id = i <;> simp [h, ih]

theorem mkJobs_length (nid nh : Nat) (fs : List File) :
    (mkJobs nid nh fs).length = fs.length := by
  induction fs generalizing nid nh with
  | nil => rfl
  | cons f fs ih => simp [mkJobs, ih]

theorem mkJobs_mem (nid nh : Nat) (fs : List File) :
    ∀ j ∈ mkJobs nid nh fs,
      nid ≤ j.id ∧ j.id < nid + fs.length ∧ j.status = .pending ∧
      j.compressedUrl = none := by
  induction fs generalizing nid nh with
  | nil => intro j hj; cases hj
  | cons f fs ih =>
      intro j hj
      rw [show mkJobs nid nh (f :: fs) =
          { id := nid, file := f, originalSize := formatSize f.size,
            compressedSize := "", status := .pending, errorMessage := none,
            originalUrl := some nh, compressedUrl := none } ::
          mkJobs (nid + 1) (nh + 1) fs from rfl, List.mem_cons] at hj
      rcases hj with rfl | hj
      · refine ⟨Nat.le_refl _, ?_, rfl, rfl⟩
        simp only [List.length_cons]
        omega
      · obtain ⟨h1, h2, h3, h4⟩ := ih (nid + 1) (nh + 1) j hj
        refine ⟨by omega, ?_, h3, h4⟩
        simp only [List.length_cons]
        omega

theorem mkJobs_id_nodup (nid nh : Nat) (fs : List File) :
    ((mkJobs nid nh fs).map VideoFile.id).Nodup := by
  induction fs generalizing nid nh with
  | nil => exact List.nodup_nil
  | cons f fs ih =>
      rw [show mkJobs nid nh (f :: fs) =
          { id := nid, file := f, originalSize := formatSize f.size,
            compressedSize := "", status := .pending, errorMessage := none,
            originalUrl := some nh, compressedUrl := none } ::
          mkJobs (nid + 1) (nh + 1) fs from rfl, List.map_cons, List.nodup_cons]
      refine ⟨?_, ih (nid + 1) (nh + 1)⟩
      intro hmem
      rw [List.mem_map] at hmem
      obtain ⟨j, hj, hid⟩ := hmem
      have := (mkJobs_mem (nid + 1) (nh + 1) fs j hj).1
      simp at hid
      omega

/-- Amended claim C3: after a backend invocation that produces its
output - whether or not the preview creation then succeeds - the
backend-internal storage under both the job's derived input and output
names has been purged (here: a one-file submission into a fresh session
leaves the storage empty and the run concluded).  The counterexample
`failed_job_storage_not_purged` shows this fails for a failing
invocation, whose storage is only purged defensively by a later job
reusing the same derived names. -/
theorem success_purges_storage (b : Backend) (f : File)
    (hok : b.execOk 0 = true) :
    (steps b (handleFileSelect initState [f]) 10).fs = [] ∧
    (steps b (handleFileSelect initState [f]) 10).tasks = [] := by
  have h0 : handleFileSelect initState [f] =
      { videoFiles := [⟨0, f, formatSize f.size, "", .compressing, none, some 0, none⟩]
        loaded := false
        activeCompressions := 1
        fs := []
        tasks := [⟨⟨0, f, formatSize f.size, "", .pending, none, some 0, none⟩,
                   .cleanupIn, []⟩]
        message := ""
        consoleLog := []
        nextId := 1
        nextHandle := 1 } := by
    simp [handleFileSelect, initState, mkJobs, markCompressing]
  have h1 : steps b (handleFileSelect initState [f]) 10 =
      steps b
        { videoFiles := [⟨0, f, formatSize f.size, "", .compressing, none, some 0, none⟩]
          loaded := false
          activeCompressions := 1
          fs := []
          tasks := [⟨⟨0, f, formatSize f.size, "", .pending, none, some 0, none⟩,
                     .writeIn, []⟩]
          message := ""
          consoleLog := []
          nextId := 1
          nextHandle := 1 } 9 := by
    rw [h0, show (10 : Nat) = 1 + 9 from rfl, steps_add, steps_one,
        tick_cleanupIn_absent b _
          ⟨0, f, formatSize f.size, "", .pending, none, some 0, none⟩ [] rfl
          (List.not_mem_nil f.name)]
  by_cases hp : b.previewOk 0 = true
  · have h2 := run_success_preview b
      { videoFiles := [⟨0, f, formatSize f.size, "", .compressing, none, some 0, none⟩]
        loaded := false
        activeCompressions := 1
        fs := []
        tasks := [⟨⟨0, f, formatSize f.size, "", .pending, none, some 0, none⟩,
                   .writeIn, []⟩]
        message := ""
        consoleLog := []
        nextId := 1
        nextHandle := 1 }
      ⟨0, f, formatSize f.size, "", .pending, none, some 0, none⟩ [] rfl hok hp
    have h3 : steps b (handleFileSelect initState [f]) 10 =
        steps b (steps b
          { videoFiles := [⟨0, f, formatSize f.size, "", .compressing, none, some 0, none⟩]
            loaded := false
            activeCompressions := 1
            fs := []
            tasks := [⟨⟨0, f, formatSize f.size, "", .pending, none, some 0, none⟩,
                       .writeIn, []⟩]
            message := ""
            consoleLog := []
            nextId := 1
            nextHandle := 1 } 5) 4 := by
      rw [h1, show (9 : Nat) = 5 + 4 from rfl, steps_add]
    rw [h3, h2]
    rw [show (4 : Nat) = 1 + 3 from rfl, steps_add, steps_one,
        tick_loop_done b _
          ⟨0, f, formatSize f.size, "", .pending, none, some 0, none⟩ rfl]
    rw [steps_no_task b _ rfl 3]
    constructor
    · show ((fsWrite (fsWrite ([] : List String) f.name)
          (outputName f.name)).erase f.name).erase (outputName f.name) = []
      simp [fsWrite, outputName_ne f.name]
    · rfl
  · have hp2 : b.previewOk 0 = false := by
      simpa using hp
    have h2 := run_success_noPreview b
      { videoFiles := [⟨0, f, formatSize f.size, "", .compressing, none, some 0, none⟩]
        loaded := false
        activeCompressions := 1
        fs := []
        tasks := [⟨⟨0, f, formatSize f.size, "", .pending, none, some 0, none⟩,
                   .writeIn, []⟩]
        message := ""
        consoleLog := []
        nextId := 1
        nextHandle := 1 }
      ⟨0, f, formatSize f.size, "", .pending, none, some 0, none⟩ [] rfl hok hp2
    have h3 : steps b (handleFileSelect initState [f]) 10 =
        steps b (steps b
          { videoFiles := [⟨0, f, formatSize f.size, "", .compressing, none, some 0, none⟩]
            loaded := false
            activeCompressions := 1
            fs := []
            tasks := [⟨⟨0, f, formatSize f.size, "", .pending, none, some 0, none⟩,
                       .writeIn, []⟩]
            message := ""
            consoleLog := []
            nextId := 1
            nextHandle := 1 } 5) 4 := by
      rw [h1, show (9 : Nat) = 5 + 4 from rfl, steps_add]
    rw [h3, h2]
    rw [show (4 : Nat) = 1 + 3 from rfl, steps_add, steps_one,
        tick_loop_done b _
          ⟨0, f, formatSize f.size, "", .pending, none, some 0, none⟩ rfl]
    rw [steps_no_task b _ rfl 3]
    constructor
    · show ((fsWrite (fsWrite ([] : List String) f.name)
          (outputName f.name)).erase f.name).erase (outputName f.name) = []
      simp [fsWrite, outputName_ne f.name]
    · rfl

/-- Claim C3 amended witness: `success_purges_storage` for the
always-succeeding backend on the concrete file "v.mp4". -/
theorem success_purges_storage_witness :
    (steps bOK (handleFileSelect initState [vA]) 10).fs = [] ∧
    (steps bOK (handleFileSelect initState [vA]) 10).tasks = [] :=
  success_purges_storage bOK vA rfl

/-- Amended claim C4: a job whose backend transcode succeeds but whose
preview creation fails ends in the `error` state with the message
"Error creating compressed video preview" and no result handle - not
in the `done` state - and the degradation is otherwise contained: the
backend storage is still purged, the occupant slot is released, and
the run concludes. -/
theorem preview_failure_degrades (b : Backend) (f : File)
    (hok : b.execOk 0 = true) (hprev : b.previewOk 0 = false) :
    (steps b (handleFileSelect initState [f]) 10).videoFiles =
      [⟨0, f, formatSize f.size, "", .error,
        some "Error creating compressed video preview", some 0, none⟩] ∧
    (steps b (handleFileSelect initState [f]) 10).fs = [] ∧
    (steps b (handleFileSelect initState [f]) 10).activeCompressions = 0 ∧
    (steps b (handleFileSelect initState [f]) 10).tasks = [] := by
  have h0 : handleFileSelect initState [f] =
      { videoFiles := [⟨0, f, formatSize f.size, "", .compressing, none, some 0, none⟩]
        loaded := false
        activeCompressions := 1
        fs := []
        tasks := [⟨⟨0, f, formatSize f.size, "", .pending, none, some 0, none⟩,
                   .cleanupIn, []⟩]
        message := ""
        consoleLog := []
        nextId := 1
        nextHandle := 1 } := by
    simp [handleFileSelect, initState, mkJobs, markCompressing]
  have h1 : steps b (handleFileSelect initState [f]) 10 =
      steps b
        { videoFiles := [⟨0, f, formatSize f.size, "", .compressing, none, some 0, none⟩]
          loaded := false
          activeCompressions := 1
          fs := []
          tasks := [⟨⟨0, f, formatSize f.size, "", .pending, none, some 0, none⟩,
                     .writeIn, []⟩]
          message := ""
          consoleLog := []
          nextId := 1
          nextHandle := 1 } 9 := by
    rw [h0, show (10 : Nat) = 1 + 9 from rfl, steps_add, steps_one,
        tick_cleanupIn_absent b _
          ⟨0, f, formatSize f.size, "", .pending, none, some 0, none⟩ [] rfl
          (List.not_mem_nil f.name)]
  have h2 := run_success_noPreview b
    { videoFiles := [⟨0, f, formatSize f.size, "", .compressing, none, some 0, none⟩]
      loaded := false
      activeCompressions := 1
      fs := []
      tasks := [⟨⟨0, f, formatSize f.size, "", .pending, none, some 0, none⟩,
                 .writeIn, []⟩]
      message := ""
      consoleLog := []
      nextId := 1
      nextHandle := 1 }
    ⟨0, f, formatSize f.size, "", .pending, none, some 0, none⟩ [] rfl hok hprev
  have h3 : steps b (handleFileSelect initState [f]) 10 =
      steps b (steps b
        { videoFiles := [⟨0, f, formatSize f.size, "", .compressing, none, some 0, none⟩]
          loaded := false
          activeCompressions := 1
          fs := []
          tasks := [⟨⟨0, f, formatSize f.size, "", .pending, none, some 0, none⟩,
                     .writeIn, []⟩]
          message := ""
          consoleLog := []
          nextId := 1
          nextHandle := 1 } 5) 4 := by
    rw [h1, show (9 : Nat) = 5 + 4 from rfl, steps_add]
  rw [h3, h2]
  rw [show (4 : Nat) = 1 + 3 from rfl, steps_add, steps_one,
      tick_loop_done b _
        ⟨0, f, formatSize f.size, "", .pending, none, some 0, none⟩ rfl]
  rw [steps_no_task b _ rfl 3]
  refine ⟨?_, ?_, by norm_num, rfl⟩
  · show markError
        [⟨0, f, formatSize f.size, "", .compressing, none, some 0, none⟩] 0
        "Error creating compressed video preview" = _
    simp [markError]
  · show ((fsWrite (fsWrite ([] : List String) f.name)
        (outputName f.name)).erase f.name).erase (outputName f.name) = []
    simp [fsWrite, outputName_ne f.name]

/-- Claim C4 amended witness: `preview_failure_degrades` for the
preview-failing backend on the concrete file "v.mp4". -/
theorem preview_failure_degrades_witness :
    (steps bNoPrev (handleFileSelect initState [vA]) 10).videoFiles =
      [⟨0, vA, formatSize vA.size, "", .error,
        some "Error creating compressed video preview", some 0, none⟩] ∧
    (steps bNoPrev (handleFileSelect initState [vA]) 10).fs = [] ∧
    (steps bNoPrev (handleFileSelect initState [vA]) 10).activeCompressions = 0 ∧
    (steps bNoPrev (handleFileSelect initState [vA]) 10).tasks = [] :=
  preview_failure_degrades bNoPrev vA rfl rfl

/-- Claim C5: a backend failure during job A's run is caught at the
transcode boundary and never propagated: job A ends `error` with its
message set to the backend error's descriptive text, the occupant slot
is released, and the later-submitted job B - still pending at A's
failure - is still attempted and reaches `done` with its own state
(size label, preview handle) unaffected by A's failure. -/
theorem failure_isolation (b : Backend) (A B : File)
    (hfail : b.execOk 0 = false) (hokB : b.execOk 1 = true)
    (hprevB : b.previewOk 1 = true) :
    (steps b (handleFileSelect initState [A, B]) 20).videoFiles =
      [⟨0, A, formatSize A.size, "", .error, some (b.execMsg 0), some 0, none⟩,
       ⟨1, B, formatSize B.size, formatSize (b.outSize 1), .done, none,
        some 1, some 2⟩] ∧
    (steps b (handleFileSelect initState [A, B]) 20).activeCompressions = 0 ∧
    (steps b (handleFileSelect initState [A, B]) 20).tasks = [] := by
  have h0 : handleFileSelect initState [A, B] =
      { videoFiles := [⟨0, A, formatSize A.size, "", .compressing, none, some 0, none⟩,
                       ⟨1, B, formatSize B.size, "", .pending, none, some 1, none⟩]
        loaded := false
        activeCompressions := 1
        fs := []
        tasks := [⟨⟨0, A, formatSize A.size, "", .pending, none, some 0, none⟩,
                   .cleanupIn,
                   [⟨1, B, formatSize B.size, "", .pending, none, some 1, none⟩]⟩]
        message := ""
        consoleLog := []
        nextId := 2
        nextHandle := 2 } := by
    simp [handleFileSelect, initState, mkJobs, markCompressing]
  have h1 : steps b
      { videoFiles := [⟨0, A, formatSize A.size, "", .compressing, none, some 0, none⟩,
                       ⟨1, B, formatSize B.size, "", .pending, none, some 1, none⟩]
        loaded := false
        activeCompressions := 1
        fs := []
        tasks := [⟨⟨0, A, formatSize A.size, "", .pending, none, some 0, none⟩,
                   .cleanupIn,
                   [⟨1, B, formatSize B.size, "", .pending, none, some 1, none⟩]⟩]
        message := ""
        consoleLog := []
        nextId := 2
        nextHandle := 2 } 20 = steps b
      { videoFiles := [⟨0, A, formatSize A.size, "", .error, some (b.execMsg 0),
                        some 0, none⟩,
                       ⟨1, B, formatSize B.size, "", .pending, none, some 1, none⟩]
        loaded := false
        activeCompressions := 0
        fs := [A.name]
        tasks := [⟨⟨0, A, formatSize A.size, "", .pending, none, some 0, none⟩,
                   .loopNext,
                   [⟨1, B, formatSize B.size, "", .pending, none, some 1, none⟩]⟩]
        message := ""
        consoleLog := []
        nextId := 2
        nextHandle := 2 } 17 := by
    rw [show (20 : Nat) = 3 + 17 from rfl, steps_add,
        run_fail_fresh b _
          ⟨0, A, formatSize A.size, "", .pending, none, some 0, none⟩
          [⟨1, B, formatSize B.size, "", .pending, none, some 1, none⟩] rfl
          (List.not_mem_nil A.name) hfail]
    simp [markError, fsWrite]
  have h2 : steps b
      { videoFiles := [⟨0, A, formatSize A.size, "", .error, some (b.execMsg 0),
                        some 0, none⟩,
                       ⟨1, B, formatSize B.size, "", .pending, none, some 1, none⟩]
        loaded := false
        activeCompressions := 0
        fs := [A.name]
        tasks := [⟨⟨0, A, formatSize A.size, "", .pending, none, some 0, none⟩,
                   .loopNext,
                   [⟨1, B, formatSize B.size, "", .pending, none, some 1, none⟩]⟩]
        message := ""
        consoleLog := []
        nextId := 2
        nextHandle := 2 } 17 = steps b
      { videoFiles := [⟨0, A, formatSize A.size, "", .error, some (b.execMsg 0),
                        some 0, none⟩,
                       ⟨1, B, formatSize B.size, "", .compressing, none, some 1, none⟩]
        loaded := false
        activeCompressions := 1
        fs := [A.name]
        tasks := [⟨⟨1, B, formatSize B.size, "", .pending, none, some 1, none⟩,
                   .cleanupIn, []⟩]
        message := ""
        consoleLog := []
        nextId := 2
        nextHandle := 2 } 16 := by
    rw [show (17 : Nat) = 1 + 16 from rfl, steps_add, steps_one,
        tick_loop_next b _
          ⟨0, A, formatSize A.size, "", .pending, none, some 0, none⟩
          ⟨1, B, formatSize B.size, "", .pending, none, some 1, none⟩ [] rfl]
    simp [markCompressing]
  rw [h0, h1, h2]
  by_cases hn : B.name = A.name
  · have h3 : steps b
        { videoFiles := [⟨0, A, formatSize A.size, "", .error, some (b.execMsg 0),
                          some 0, none⟩,
                         ⟨1, B, formatSize B.size, "", .compressing, none, some 1, none⟩]
          loaded := false
          activeCompressions := 1
          fs := [A.name]
          tasks := [⟨⟨1, B, formatSize B.size, "", .pending, none, some 1, none⟩,
                     .cleanupIn, []⟩]
          message := ""
          consoleLog := []
          nextId := 2
          nextHandle := 2 } 16 = steps b
        { videoFiles := [⟨0, A, formatSize A.size, "", .error, some (b.execMsg 0),
                          some 0, none⟩,
                         ⟨1, B, formatSize B.size, "", .compressing, none, some 1, none⟩]
          loaded := false
          activeCompressions := 1
          fs := []
          tasks := [⟨⟨1, B, formatSize B.size, "", .pending, none, some 1, none⟩,
                     .cleanupOut, []⟩]
          message := ""
          consoleLog := []
          nextId := 2
          nextHandle := 2 } 15 := by
      have hin : B.name ∈ ([A.name] : List String) := by simp [hn]
      rw [show (16 : Nat) = 1 + 15 from rfl, steps_add, steps_one,
          tick_cleanupIn_present b _
            ⟨1, B, formatSize B.size, "", .pending, none, some 1, none⟩ [] rfl hin]
      simp [hn]
    have h4 : steps b
        { videoFiles := [⟨0, A, formatSize A.size, "", .error, some (b.execMsg 0),
                          some 0, none⟩,
                         ⟨1, B, formatSize B.size, "", .compressing, none, some 1, none⟩]
          loaded := false
          activeCompressions := 1
          fs := []
          tasks := [⟨⟨1, B, formatSize B.size, "", .pending, none, some 1, none⟩,
                     .cleanupOut, []⟩]
          message := ""
          consoleLog := []
          nextId := 2
          nextHandle := 2 } 15 = steps b
        { videoFiles := [⟨0, A, formatSize A.size, "", .error, some (b.execMsg 0),
                          some 0, none⟩,
                         ⟨1, B, formatSize B.size, "", .compressing, none, some 1, none⟩]
          loaded := false
          activeCompressions := 1
          fs := []
          tasks := [⟨⟨1, B, formatSize B.size, "", .pending, none, some 1, none⟩,
                     .writeIn, []⟩]
          message := ""
          consoleLog := []
          nextId := 2
          nextHandle := 2 } 14 := by
      rw [show (15 : Nat) = 1 + 14 from rfl, steps_add, steps_one,
          tick_cleanupOut_absent b _
            ⟨1, B, formatSize B.size, "", .pending, none, some 1, none⟩ [] rfl
            (List.not_mem_nil (outputName B.name))]
    have h5 : steps b
        { videoFiles := [⟨0, A, formatSize A.size, "", .error, some (b.execMsg 0),
                          some 0, none⟩,
                         ⟨1, B, formatSize B.size, "", .compressing, none, some 1, none⟩]
          loaded := false
          activeCompressions := 1
          fs := []
          tasks := [⟨⟨1, B, formatSize B.size, "", .pending, none, some 1, none⟩,
                     .writeIn, []⟩]
          message := ""
          consoleLog := []
          nextId := 2
          nextHandle := 2 } 14 = steps b
        { videoFiles := [⟨0, A, formatSize A.size, "", .error, some (b.execMsg 0),
                          some 0, none⟩,
                         ⟨1, B, formatSize B.size, formatSize (b.outSize 1), .done,
                          none, some 1, some 2⟩]
          loaded := false
          activeCompressions := 0
          fs := ((fsWrite (fsWrite [] B.name) (outputName B.name)).erase
                  B.name).erase (outputName B.name)
          tasks := [⟨⟨1, B, formatSize B.size, "", .pending, none, some 1, none⟩,
                     .loopNext, []⟩]
          message := ""
          consoleLog := []
          nextId := 2
          nextHandle := 3 } 9 := by
      rw [show (14 : Nat) = 5 + 9 from rfl, steps_add,
          run_success_preview b _
            ⟨1, B, formatSize B.size, "", .pending, none, some 1, none⟩ [] rfl
            hokB hprevB]
      simp [markDone]
    rw [h3, h4, h5,
        show (9 : Nat) = 1 + 8 from rfl, steps_add, steps_one,
        tick_loop_done b _
          ⟨1, B, formatSize B.size, "", .pending, none, some 1, none⟩ rfl,
        steps_no_task b _ rfl 8]
    exact ⟨rfl, rfl, rfl⟩
  · have h3 : steps b
        { videoFiles := [⟨0, A, formatSize A.size, "", .error, some (b.execMsg 0),
                          some 0, none⟩,
                         ⟨1, B, formatSize B.size, "", .compressing, none, some 1, none⟩]
          loaded := false
          activeCompressions := 1
          fs := [A.name]
          tasks := [⟨⟨1, B, formatSize B.size, "", .pending, none, some 1, none⟩,
                     .cleanupIn, []⟩]
          message := ""
          consoleLog := []
          nextId := 2
          nextHandle := 2 } 16 = steps b
        { videoFiles := [⟨0, A, formatSize A.size, "", .error, some (b.execMsg 0),
                          some 0, none⟩,
                         ⟨1, B, formatSize B.size, "", .compressing, none, some 1, none⟩]
          loaded := false
          activeCompressions := 1
          fs := [A.name]
          tasks := [⟨⟨1, B, formatSize B.size, "", .pending, none, some 1, none⟩,
                     .writeIn, []⟩]
          message := ""
          consoleLog := []
          nextId := 2
          nextHandle := 2 } 15 := by
      have hnin : B.name ∉ ([A.name] : List String) := by simp [hn]
      rw [show (16 : Nat) = 1 + 15 from rfl, steps_add, steps_one,
          tick_cleanupIn_absent b _
            ⟨1, B, formatSize B.size, "", .pending, none, some 1, none⟩ [] rfl hnin]
    have h5 : steps b
        { videoFiles := [⟨0, A, formatSize A.size, "", .error, some (b.execMsg 0),
                          some 0, none⟩,
                         ⟨1, B, formatSize B.size, "", .compressing, none, some 1, none⟩]
          loaded := false
          activeCompressions := 1
          fs := [A.name]
          tasks := [⟨⟨1, B, formatSize B.size, "", .pending, none, some 1, none⟩,
                     .writeIn, []⟩]
          message := ""
          consoleLog := []
          nextId := 2
          nextHandle := 2 } 15 = steps b
        { videoFiles := [⟨0, A, formatSize A.size, "", .error, some (b.execMsg 0),
                          some 0, none⟩,
                         ⟨1, B, formatSize B.size, formatSize (b.outSize 1), .done,
                          none, some 1, some 2⟩]
          loaded := false
          activeCompressions := 0
          fs := ((fsWrite (fsWrite [A.name] B.name) (outputName B.name)).erase
                  B.name).erase (outputName B.name)
          tasks := [⟨⟨1, B, formatSize B.size, "", .pending, none, some 1, none⟩,
                     .loopNext, []⟩]
          message := ""
          consoleLog := []
          nextId := 2
          nextHandle := 3 } 10 := by
      rw [show (15 : Nat) = 5 + 10 from rfl, steps_add,
          run_success_preview b _
            ⟨1, B, formatSize B.size, "", .pending, none, some 1, none⟩ [] rfl
            hokB hprevB]
      simp [markDone]
    rw [h3, h5,
        show (10 : Nat) = 1 + 9 from rfl, steps_add, steps_one,
        tick_loop_done b _
          ⟨1, B, formatSize B.size, "", .pending, none, some 1, none⟩ rfl,
        steps_no_task b _ rfl 9]
    exact ⟨rfl, rfl, rfl⟩

/-- Claim C5 witness: `failure_isolation` for the backend that fails
job 0 and succeeds afterwards, on the concrete files "v.mp4" and
"w.mp4". -/
theorem failure_isolation_witness :
    (steps bFailFirst (handleFileSelect initState [vA, vB]) 20).videoFiles =
      [⟨0, vA, formatSize vA.size, "", .error, some (bFailFirst.execMsg 0),
        some 0, none⟩,
       ⟨1, vB, formatSize vB.size, formatSize (bFailFirst.outSize 1), .done,
        none, some 1, some 2⟩] ∧
    (steps bFailFirst (handleFileSelect initState [vA, vB]) 20).activeCompressions
      = 0 ∧
    (steps bFailFirst (handleFileSelect initState [vA, vB]) 20).tasks = [] :=
  failure_isolation bFailFirst vA vB rfl rfl rfl

theorem early_late_absurd (p : Phase) (h1 : earlyPhase p) (h2 : latePhase p) :
    False := by
  rcases h1 with rfl | rfl | rfl | rfl | rfl <;> simp [latePhase] at h2

/-- Preservation of the serial invariant by a step that changes only
the storage and the suspension point, within the early phases or
within the late phases. -/
theorem inv_pure_step (s : AppState) (v : VideoFile) (r : List VideoFile)
    (p p' : Phase) (fs' : List String) (a : Int)
    (h : s.tasks = [⟨v, p, r⟩]) (hInv : SerialInv s)
    (hEE : (earlyPhase p ∧ earlyPhase p') ∨ (latePhase p ∧ latePhase p'))
    (hIn : (p' = .execing ∨ p' = .reading ∨ p' = .delIn) → v.file.name ∈ fs')
    (hOut : (p' = .reading ∨ p' = .delIn ∨ p' = .delOut) →
      outputName v.file.name ∈ fs') :
    SerialInv { s with fs := fs', activeCompressions := a,
                       tasks := [⟨v, p', r⟩] } := by
  refine ⟨by simp, hInv.idsNodup, hInv.idsLt, hInv.urlIff, ?_, ?_, ?_, ?_, ?_, ?_⟩
  · intro j hj hc
    obtain ⟨t, ht, hid, hearly⟩ := hInv.comprCur j hj hc
    rw [h, List.mem_singleton] at ht
    subst ht
    refine ⟨⟨v, p', r⟩, by simp, hid, ?_⟩
    rcases hEE with ⟨_, hE⟩ | ⟨hL, _⟩
    · exact hE
    · exact absurd hL (fun hL2 => early_late_absurd p hearly hL2)
  · intro t' ht' j hj hid
    rw [List.mem_singleton] at ht'
    subst ht'
    have hcs := hInv.curStatus ⟨v, p, r⟩ (by rw [h]; exact List.mem_singleton.mpr rfl)
      j hj hid
    constructor
    · intro hE'
      rcases hEE with ⟨hE, _⟩ | ⟨_, hL'⟩
      · exact hcs.1 hE
      · exact absurd hE' (fun hE2 => early_late_absurd p' hE2 hL')
    · intro hL'
      rcases hEE with ⟨_, hE'⟩ | ⟨hL, _⟩
      · exact absurd hL' (fun hL2 => early_late_absurd p' hE' hL2)
      · exact hcs.2 hL
  · intro t' ht'
    rw [List.mem_singleton] at ht'
    subst ht'
    exact hInv.taskNodup ⟨v, p, r⟩ (by rw [h]; exact List.mem_singleton.mpr rfl)
  · intro t' ht' w hw j hj hid
    rw [List.mem_singleton] at ht'
    subst ht'
    exact hInv.restPending ⟨v, p, r⟩ (by rw [h]; exact List.mem_singleton.mpr rfl)
      w hw j hj hid
  · intro t' ht' hp'
    rw [List.mem_singleton] at ht'
    subst ht'
    exact hIn hp'
  · intro t' ht' hp'
    rw [List.mem_singleton] at ht'
    subst ht'
    exact hOut hp'

theorem mem_markCompressing_cases {l : List VideoFile} {i : Nat} {j : VideoFile}
    (hj : j ∈ markCompressing l i) :
    (∃ j0 ∈ l, j0.id = i ∧ j = { j0 with status := .compressing }) ∨
    (j ∈ l ∧ j.id ≠ i) := by
  simp only [markCompressing, List.mem_map] at hj
  obtain ⟨j0, hj0, heq⟩ := hj
  by_cases h0 : j0.id = i
  · left
    exact ⟨j0, hj0, h0, by rw [← heq, if_pos h0]⟩
  · right
    rw [← heq, if_neg h0]
    exact ⟨hj0, h0⟩

theorem mem_markError_cases {l : List VideoFile} {i : Nat} {m : String}
    {j : VideoFile} (hj : j ∈ markError l i m) :
    (∃ j0 ∈ l, j0.id = i ∧
      j = { j0 with status := .error, errorMessage := some m }) ∨
    (j ∈ l ∧ j.id ≠ i) := by
  simp only [markError, List.mem_map] at hj
  obtain ⟨j0, hj0, heq⟩ := hj
  by_cases h0 : j0.id = i
  · left
    exact ⟨j0, hj0, h0, by rw [← heq, if_pos h0]⟩
  · right
    rw [← heq, if_neg h0]
    exact ⟨hj0, h0⟩

theorem mem_markDone_cases {l : List VideoFile} {i : Nat} {lbl : String}
    {u : Nat} {j : VideoFile} (hj : j ∈ markDone l i lbl u) :
    (∃ j0 ∈ l, j0.id = i ∧
      j = { j0 with status := .done, compressedSize := lbl,
                    compressedUrl := some u }) ∨
    (j ∈ l ∧ j.id ≠ i) := by
  simp only [markDone, List.mem_map] at hj
  obtain ⟨j0, hj0, heq⟩ := hj
  by_cases h0 : j0.id = i
  · left
    exact ⟨j0, hj0, h0, by rw [← heq, if_pos h0]⟩
  · right
    rw [← heq, if_neg h0]
    exact ⟨hj0, h0⟩

/-- Preservation of the serial invariant by the step that catches a
backend failure while the current job is still `compressing`: the job
is marked `error`, the slot is released, and the task moves to the
caller's loop. -/
theorem inv_error_loopNext (s : AppState) (v : VideoFile) (r : List VideoFile)
    (p : Phase) (m : String) (a : Int)
    (h : s.tasks = [⟨v, p, r⟩]) (hInv : SerialInv s) (hE : earlyPhase p) :
    SerialInv { s with
      videoFiles := markError s.videoFiles v.id m
      activeCompressions := a
      tasks := [⟨v, .loopNext, r⟩] } := by
  have hmemT : (⟨v, p, r⟩ : Task) ∈ s.tasks := by
    rw [h]
    exact List.mem_singleton.mpr rfl
  refine ⟨by simp, ?_, ?_, ?_, ?_, ?_, ?_, ?_, ?_, ?_⟩
  · show ((markError s.videoFiles v.id m).map VideoFile.id).Nodup
    rw [markError_map_id]
    exact hInv.idsNodup
  · intro j hj
    rcases mem_markError_cases hj with ⟨j0, hj0, hid0, rfl⟩ | ⟨hjl, _⟩
    · exact hInv.idsLt j0 hj0
    · exact hInv.idsLt j hjl
  · intro j hj
    rcases mem_markError_cases hj with ⟨j0, hj0, hid0, rfl⟩ | ⟨hjl, _⟩
    · have hc := (hInv.curStatus ⟨v, p, r⟩ hmemT j0 hj0 hid0).1 hE
      constructor
      · intro hsome
        have := (hInv.urlIff j0 hj0).mp hsome
        rw [hc] at this
        cases this
      · intro hd
        cases hd
    · exact hInv.urlIff j hjl
  · intro j hj hc
    rcases mem_markError_cases hj with ⟨j0, hj0, hid0, rfl⟩ | ⟨hjl, hne⟩
    · cases hc
    · obtain ⟨t, ht, hid, hearly⟩ := hInv.comprCur j hjl hc
      rw [h, List.mem_singleton] at ht
      subst ht
      exact absurd hid hne
  · intro t' ht' j hj hid
    rw [List.mem_singleton] at ht'
    subst ht'
    constructor
    · intro hE'
      exact absurd hE'
        (fun hE2 => early_late_absurd .loopNext hE2 (Or.inr (Or.inr rfl)))
    · intro _
      have hid' : j.id = v.id := hid
      rcases mem_markError_cases hj with ⟨j0, hj0, hid0, rfl⟩ | ⟨hjl, hne⟩
      · right
        rfl
      · exact absurd hid' hne
  · intro t' ht'
    rw [List.mem_singleton] at ht'
    subst ht'
    exact hInv.taskNodup ⟨v, p, r⟩ hmemT
  · intro t' ht' w hw j hj hid
    rw [List.mem_singleton] at ht'
    subst ht'
    have hid' : j.id = w.id := hid
    have hvnotin : v.id ∉ r.map VideoFile.id :=
      (List.nodup_cons.mp (hInv.taskNodup ⟨v, p, r⟩ hmemT)).1
    rcases mem_markError_cases hj with ⟨j0, hj0, hid0, rfl⟩ | ⟨hjl, hne⟩
    · exfalso
      apply hvnotin
      rw [List.mem_map]
      refine ⟨w, hw, ?_⟩
      show w.id = v.id
      calc w.id = j0.id := by rw [← hid']
        _ = v.id := hid0
    · exact hInv.restPending ⟨v, p, r⟩ hmemT w hw j hjl hid'
  · intro t' ht' hp'
    rw [List.mem_singleton] at ht'
    subst ht'
    exact absurd hp' (by simp)
  · intro t' ht' hp'
    rw [List.mem_singleton] at ht'
    subst ht'
    exact absurd hp' (by simp)

/-- Preservation of the serial invariant by the read step when the
preview creation succeeds: the job is marked `done` together with its
size label and preview handle, and the task moves to the final input
cleanup. -/
theorem inv_done_delIn (s : AppState) (v : VideoFile) (r : List VideoFile)
    (lbl : String) (h : s.tasks = [⟨v, .reading, r⟩]) (hInv : SerialInv s) :
    SerialInv { s with
      videoFiles := markDone s.videoFiles v.id lbl s.nextHandle
      nextHandle := s.nextHandle + 1
      tasks := [⟨v, .delIn, r⟩] } := by
  have hmemT : (⟨v, .reading, r⟩ : Task) ∈ s.tasks := by
    rw [h]
    exact List.mem_singleton.mpr rfl
  refine ⟨by simp, ?_, ?_, ?_, ?_, ?_, ?_, ?_, ?_, ?_⟩
  · show ((markDone s.videoFiles v.id lbl s.nextHandle).map VideoFile.id).Nodup
    rw [markDone_map_id]
    exact hInv.idsNodup
  · intro j hj
    rcases mem_markDone_cases hj with ⟨j0, hj0, hid0, rfl⟩ | ⟨hjl, _⟩
    · exact hInv.idsLt j0 hj0
    · exact hInv.idsLt j hjl
  · intro j hj
    rcases mem_markDone_cases hj with ⟨j0, hj0, hid0, rfl⟩ | ⟨hjl, _⟩
    · exact ⟨fun _ => rfl, fun _ => rfl⟩
    · exact hInv.urlIff j hjl
  · intro j hj hc
    rcases mem_markDone_cases hj with ⟨j0, hj0, hid0, rfl⟩ | ⟨hjl, hne⟩
    · cases hc
    · obtain ⟨t, ht, hid, hearly⟩ := hInv.comprCur j hjl hc
      rw [h, List.mem_singleton] at ht
      subst ht
      exact absurd hid hne
  · intro t' ht' j hj hid
    rw [List.mem_singleton] at ht'
    subst ht'
    constructor
    · intro hE'
      exact absurd hE' (by simp [earlyPhase])
    · intro _
      have hid' : j.id = v.id := hid
      rcases mem_markDone_cases hj with ⟨j0, hj0, hid0, rfl⟩ | ⟨hjl, hne⟩
      · left
        rfl
      · exact absurd hid' hne
  · intro t' ht'
    rw [List.mem_singleton] at ht'
    subst ht'
    exact hInv.taskNodup ⟨v, .reading, r⟩ hmemT
  · intro t' ht' w hw j hj hid
    rw [List.mem_singleton] at ht'
    subst ht'
    have hid' : j.id = w.id := hid
    have hvnotin : v.id ∉ r.map VideoFile.id :=
      (List.nodup_cons.mp (hInv.taskNodup ⟨v, .reading, r⟩ hmemT)).1
    rcases mem_markDone_cases hj with ⟨j0, hj0, hid0, rfl⟩ | ⟨hjl, hne⟩
    · exfalso
      apply hvnotin
      rw [List.mem_map]
      refine ⟨w, hw, ?_⟩
      show w.id = v.id
      calc w.id = j0.id := by rw [← hid']
        _ = v.id := hid0
    · exact hInv.restPending ⟨v, .reading, r⟩ hmemT w hw j hjl hid'
  · intro t' ht' hp'
    rw [List.mem_singleton] at ht'
    subst ht'
    exact hInv.fsIn ⟨v, .reading, r⟩ hmemT (Or.inr (Or.inl rfl))
  · intro t' ht' hp'
    rw [List.mem_singleton] at ht'
    subst ht'
    exact hInv.fsOut ⟨v, .reading, r⟩ hmemT (Or.inl rfl)

/-- Preservation of the serial invariant by the read step when the
preview creation fails: the job is marked `error` (its handle field,
previously empty, stays empty) and the task moves to the final input
cleanup. -/
theorem inv_errorPreview_delIn (s : AppState) (v : VideoFile)
    (r : List VideoFile) (m : String)
    (h : s.tasks = [⟨v, .reading, r⟩]) (hInv : SerialInv s) :
    SerialInv { s with
      videoFiles := markError s.videoFiles v.id m
      tasks := [⟨v, .delIn, r⟩] } := by
  have hmemT : (⟨v, .reading, r⟩ : Task) ∈ s.tasks := by
    rw [h]
    exact List.mem_singleton.mpr rfl
  have hE : earlyPhase (Phase.reading) := by simp [earlyPhase]
  refine ⟨by simp, ?_, ?_, ?_, ?_, ?_, ?_, ?_, ?_, ?_⟩
  · show ((markError s.videoFiles v.id m).map VideoFile.id).Nodup
    rw [markError_map_id]
    exact hInv.idsNodup
  · intro j hj
    rcases mem_markError_cases hj with ⟨j0, hj0, hid0, rfl⟩ | ⟨hjl, _⟩
    · exact hInv.idsLt j0 hj0
    · exact hInv.idsLt j hjl
  · intro j hj
    rcases mem_markError_cases hj with ⟨j0, hj0, hid0, rfl⟩ | ⟨hjl, _⟩
    · have hc := (hInv.curStatus ⟨v, .reading, r⟩ hmemT j0 hj0 hid0).1 hE
      constructor
      · intro hsome
        have := (hInv.urlIff j0 hj0).mp hsome
        rw [hc] at this
        cases this
      · intro hd
        cases hd
    · exact hInv.urlIff j hjl
  · intro j hj hc
    rcases mem_markError_cases hj with ⟨j0, hj0, hid0, rfl⟩ | ⟨hjl, hne⟩
    · cases hc
    · obtain ⟨t, ht, hid, hearly⟩ := hInv.comprCur j hjl hc
      rw [h, List.mem_singleton] at ht
      subst ht
      exact absurd hid hne
  · intro t' ht' j hj hid
    rw [List.mem_singleton] at ht'
    subst ht'
    constructor
    · intro hE'
      exact absurd hE' (by simp [earlyPhase])
    · intro _
      have hid' : j.id = v.id := hid
      rcases mem_markError_cases hj with ⟨j0, hj0, hid0, rfl⟩ | ⟨hjl, hne⟩
      · right
        rfl
      · exact absurd hid' hne
  · intro t' ht'
    rw [List.mem_singleton] at ht'
    subst ht'
    exact hInv.taskNodup ⟨v, .reading, r⟩ hmemT
  · intro t' ht' w hw j hj hid
    rw [List.mem_singleton] at ht'
    subst ht'
    have hid' : j.id = w.id := hid
    have hvnotin : v.id ∉ r.map VideoFile.id :=
      (List.nodup_cons.mp (hInv.taskNodup ⟨v, .reading, r⟩ hmemT)).1
    rcases mem_markError_cases hj with ⟨j0, hj0, hid0, rfl⟩ | ⟨hjl, hne⟩
    · exfalso
      apply hvnotin
      rw [List.mem_map]
      refine ⟨w, hw, ?_⟩
      show w.id = v.id
      calc w.id = j0.id := by rw [← hid']
        _ = v.id := hid0
    · exact hInv.restPending ⟨v, .reading, r⟩ hmemT w hw j hjl hid'
  · intro t' ht' hp'
    rw [List.mem_singleton] at ht'
    subst ht'
    exact hInv.fsIn ⟨v, .reading, r⟩ hmemT (Or.inr (Or.inl rfl))
  · intro t' ht' hp'
    rw [List.mem_singleton] at ht'
    subst ht'
    exact hInv.fsOut ⟨v, .reading, r⟩ hmemT (Or.inl rfl)

/-- Preservation of the serial invariant when the caller's loop ends
(no remaining files): the task disappears. -/
theorem inv_loop_remove (s : AppState) (v : VideoFile)
    (h : s.tasks = [⟨v, .loopNext, []⟩]) (hInv : SerialInv s) :
    SerialInv { s with tasks := [] } := by
  refine ⟨by simp, hInv.idsNodup, hInv.idsLt, hInv.urlIff, ?_, ?_, ?_, ?_, ?_, ?_⟩
  · intro j hj hc
    obtain ⟨t, ht, hid, hearly⟩ := hInv.comprCur j hj hc
    rw [h, List.mem_singleton] at ht
    subst ht
    exact absurd hearly (by simp [earlyPhase])
  · intro t' ht'
    cases ht'
  · intro t' ht'
    cases ht'
  · intro t' ht' w hw j hj hid
    cases ht'
  · intro t' ht' hp'
    cases ht'
  · intro t' ht' hp'
    cases ht'

/-- Preservation of the serial invariant when the caller's loop starts
the next file's transcode: that job - still pending - is marked
`compressing` and becomes the new current job at the first cleanup
suspension point. -/
theorem inv_loop_dispatch (s : AppState) (v v' : VideoFile)
    (vs : List VideoFile) (a : Int)
    (h : s.tasks = [⟨v, .loopNext, v' :: vs⟩]) (hInv : SerialInv s) :
    SerialInv { s with
      videoFiles := markCompressing s.videoFiles v'.id
      activeCompressions := a
      tasks := [⟨v', .cleanupIn, vs⟩] } := by
  have hmemT : (⟨v, .loopNext, v' :: vs⟩ : Task) ∈ s.tasks := by
    rw [h]
    exact List.mem_singleton.mpr rfl
  have htail : (v'.id :: vs.map VideoFile.id).Nodup := by
    have := (List.nodup_cons.mp (hInv.taskNodup _ hmemT)).2
    simpa using this
  refine ⟨by simp, ?_, ?_, ?_, ?_, ?_, ?_, ?_, ?_, ?_⟩
  · show ((markCompressing s.videoFiles v'.id).map VideoFile.id).Nodup
    rw [markCompressing_map_id]
    exact hInv.idsNodup
  · intro j hj
    rcases mem_markCompressing_cases hj with ⟨j0, hj0, hid0, rfl⟩ | ⟨hjl, _⟩
    · exact hInv.idsLt j0 hj0
    · exact hInv.idsLt j hjl
  · intro j hj
    rcases mem_markCompressing_cases hj with ⟨j0, hj0, hid0, rfl⟩ | ⟨hjl, _⟩
    · have hp : j0.status = .pending :=
        hInv.restPending ⟨v, .loopNext, v' :: vs⟩ hmemT v' (by simp) j0 hj0 hid0
      constructor
      · intro hsome
        have := (hInv.urlIff j0 hj0).mp hsome
        rw [hp] at this
        cases this
      · intro hd
        cases hd
    · exact hInv.urlIff j hjl
  · intro j hj hc
    rcases mem_markCompressing_cases hj with ⟨j0, hj0, hid0, rfl⟩ | ⟨hjl, hne⟩
    · refine ⟨⟨v', .cleanupIn, vs⟩, by simp, hid0, by simp [earlyPhase]⟩
    · obtain ⟨t, ht, hid, hearly⟩ := hInv.comprCur j hjl hc
      rw [h, List.mem_singleton] at ht
      subst ht
      exact absurd hearly (by simp [earlyPhase])
  · intro t' ht' j hj hid
    rw [List.mem_singleton] at ht'
    subst ht'
    have hid' : j.id = v'.id := hid
    constructor
    · intro _
      rcases mem_markCompressing_cases hj with ⟨j0, hj0, hid0, rfl⟩ | ⟨hjl, hne⟩
      · rfl
      · exact absurd hid' hne
    · intro hL'
      exact absurd hL' (by simp [latePhase])
  · intro t' ht'
    rw [List.mem_singleton] at ht'
    subst ht'
    exact htail
  · intro t' ht' w hw j hj hid
    rw [List.mem_singleton] at ht'
    subst ht'
    have hid' : j.id = w.id := hid
    have hvnotin : v'.id ∉ vs.map VideoFile.id := (List.nodup_cons.mp htail).1
    rcases mem_markCompressing_cases hj with ⟨j0, hj0, hid0, rfl⟩ | ⟨hjl, hne⟩
    · exfalso
      apply hvnotin
      rw [List.mem_map]
      refine ⟨w, hw, ?_⟩
      show w.id = v'.id
      calc w.id = j0.id := by rw [← hid']
        _ = v'.id := hid0
    · exact hInv.restPending ⟨v, .loopNext, v' :: vs⟩ hmemT w (by simp [hw])
        j hjl hid'
  · intro t' ht' hp'
    rw [List.mem_singleton] at ht'
    subst ht'
    exact absurd hp' (by simp)
  · intro t' ht' hp'
    rw [List.mem_singleton] at ht'
    subst ht'
    exact absurd hp' (by simp)

/-- Preservation of the serial invariant by one scheduler tick. -/
theorem inv_tick (b : Backend) (s : AppState) (i : Nat) (hInv : SerialInv s) :
    SerialInv (applyEv b s (.tick i)) := by
  cases hT : s.tasks with
  | nil =>
      have he : applyEv b s (.tick i) = s := by simp [applyEv, stepTask, hT]
      rw [he]
      exact hInv
  | cons t ts =>
    cases ts with
    | cons t2 ts2 =>
        exact absurd hInv.oneTask
          (by rw [hT]; simp only [List.length_cons]; omega)
    | nil =>
      cases i with
      | succ k =>
          have he : applyEv b s (.tick (k + 1)) = s := by
            simp [applyEv, stepTask, hT]
          rw [he]
          exact hInv
      | zero =>
        obtain ⟨v, p, r⟩ := t
        have hmemT : (⟨v, p, r⟩ : Task) ∈ s.tasks := by
          rw [hT]
          exact List.mem_singleton.mpr rfl
        cases p with
        | cleanupIn =>
            by_cases hin : v.file.name ∈ s.fs
            · rw [tick_cleanupIn_present b s v r hT hin]
              exact inv_pure_step s v r .cleanupIn .cleanupOut
                (s.fs.erase v.file.name) s.activeCompressions hT hInv
                (Or.inl ⟨by simp [earlyPhase], by simp [earlyPhase]⟩)
                (fun hx => absurd hx (by simp))
                (fun hx => absurd hx (by simp))
            · rw [tick_cleanupIn_absent b s v r hT hin]
              exact inv_pure_step s v r .cleanupIn .writeIn
                s.fs s.activeCompressions hT hInv
                (Or.inl ⟨by simp [earlyPhase], by simp [earlyPhase]⟩)
                (fun hx => absurd hx (by simp))
                (fun hx => absurd hx (by simp))
        | cleanupOut =>
            by_cases hout : outputName v.file.name ∈ s.fs
            · have he : applyEv b s (.tick 0) =
                  { s with fs := s.fs.erase (outputName v.file.name)
                           tasks := [⟨v, .writeIn, r⟩] } := by
                simp [applyEv, stepTask, hT, fsDelete, hout]
              rw [he]
              exact inv_pure_step s v r .cleanupOut .writeIn
                (s.fs.erase (outputName v.file.name)) s.activeCompressions hT hInv
                (Or.inl ⟨by simp [earlyPhase], by simp [earlyPhase]⟩)
                (fun hx => absurd hx (by simp))
                (fun hx => absurd hx (by simp))
            · rw [tick_cleanupOut_absent b s v r hT hout]
              exact inv_pure_step s v r .cleanupOut .writeIn
                s.fs s.activeCompressions hT hInv
                (Or.inl ⟨by simp [earlyPhase], by simp [earlyPhase]⟩)
                (fun hx => absurd hx (by simp))
                (fun hx => absurd hx (by simp))
        | writeIn =>
            rw [tick_writeIn b s v r hT]
            exact inv_pure_step s v r .writeIn .execing
              (fsWrite s.fs v.file.name) s.activeCompressions hT hInv
              (Or.inl ⟨by simp [earlyPhase], by simp [earlyPhase]⟩)
              (fun _ => mem_fsWrite_self s.fs v.file.name)
              (fun hx => absurd hx (by simp))
        | execing =>
            by_cases hok : b.execOk v.id = true
            · rw [tick_exec_ok b s v r hT hok]
              exact inv_pure_step s v r .execing .reading
                (fsWrite s.fs (outputName v.file.name)) s.activeCompressions
                hT hInv
                (Or.inl ⟨by simp [earlyPhase], by simp [earlyPhase]⟩)
                (fun _ => mem_fsWrite s.fs v.file.name
                  (outputName v.file.name)
                  (hInv.fsIn ⟨v, .execing, r⟩ hmemT (Or.inl rfl)))
                (fun _ => mem_fsWrite_self s.fs (outputName v.file.name))
            · have hok' : b.execOk v.id = false := by simpa using hok
              rw [tick_exec_fail b s v r hT hok']
              exact inv_error_loopNext s v r .execing (b.execMsg v.id)
                (s.activeCompressions - 1) hT hInv (by simp [earlyPhase])
        | reading =>
            have hout : outputName v.file.name ∈ s.fs :=
              hInv.fsOut ⟨v, .reading, r⟩ hmemT (Or.inl rfl)
            by_cases hprev : b.previewOk v.id = true
            · rw [tick_reading_preview b s v r hT hout hprev]
              exact inv_done_delIn s v r (formatSize (b.outSize v.id)) hT hInv
            · have hprev' : b.previewOk v.id = false := by simpa using hprev
              rw [tick_reading_noPreview b s v r hT hout hprev']
              exact inv_errorPreview_delIn s v r
                "Error creating compressed video preview" hT hInv
        | delIn =>
            have hin : v.file.name ∈ s.fs :=
              hInv.fsIn ⟨v, .delIn, r⟩ hmemT (Or.inr (Or.inr rfl))
            rw [tick_delIn b s v r hT hin]
            exact inv_pure_step s v r .delIn .delOut
              (s.fs.erase v.file.name) s.activeCompressions hT hInv
              (Or.inr ⟨by simp [latePhase], by simp [latePhase]⟩)
              (fun hx => absurd hx (by simp))
              (fun _ => (List.mem_erase_of_ne (outputName_ne v.file.name)).mpr
                (hInv.fsOut ⟨v, .delIn, r⟩ hmemT (Or.inr (Or.inl rfl))))
        | delOut =>
            have hout : outputName v.file.name ∈ s.fs :=
              hInv.fsOut ⟨v, .delOut, r⟩ hmemT (Or.inr (Or.inr rfl))
            rw [tick_delOut b s v r hT hout]
            exact inv_pure_step s v r .delOut .loopNext
              (s.fs.erase (outputName v.file.name))
              (s.activeCompressions - 1) hT hInv
              (Or.inr ⟨by simp [latePhase], by simp [latePhase]⟩)
              (fun hx => absurd hx (by simp))
              (fun hx => absurd hx (by simp))
        | loopNext =>
            cases r with
            | nil =>
                rw [tick_loop_done b s v hT]
                exact inv_loop_remove s v hT hInv
            | cons w ws =>
                rw [tick_loop_next b s v w ws hT]
                exact inv_loop_dispatch s v w ws
                  (s.activeCompressions + 1) hT hInv

/-- Preservation of the serial invariant by a nonempty accepted
submission: the new jobs are appended pending, the first is marked
`compressing`, and its transcode parks at the first cleanup. -/
theorem inv_submit (s : AppState) (f : File) (fs : List File)
    (hT : s.tasks = []) (hInv : SerialInv s) :
    SerialInv { s with
      videoFiles := markCompressing
        (s.videoFiles ++ mkJobs s.nextId s.nextHandle (f :: fs)) s.nextId
      activeCompressions := s.activeCompressions + 1
      tasks := [⟨⟨s.nextId, f, formatSize f.size, "", .pending, none,
                 some s.nextHandle, none⟩, .cleanupIn,
                 mkJobs (s.nextId + 1) (s.nextHandle + 1) fs⟩]
      nextId := s.nextId + (f :: fs).length
      nextHandle := s.nextHandle + (f :: fs).length } := by
  have hnews := mkJobs_mem s.nextId s.nextHandle (f :: fs)
  have hrest := mkJobs_mem (s.nextId + 1) (s.nextHandle + 1) fs
  refine ⟨by simp, ?_, ?_, ?_, ?_, ?_, ?_, ?_, ?_, ?_⟩
  · show ((markCompressing
        (s.videoFiles ++ mkJobs s.nextId s.nextHandle (f :: fs))
        s.nextId).map VideoFile.id).Nodup
    rw [markCompressing_map_id, List.map_append, List.nodup_append]
    refine ⟨hInv.idsNodup, mkJobs_id_nodup _ _ _, ?_⟩
    intro a ha hb
    rw [List.mem_map] at ha hb
    obtain ⟨j1, hj1, rfl⟩ := ha
    obtain ⟨j2, hj2, hid2⟩ := hb
    have h1 := hInv.idsLt j1 hj1
    have h2 := (hnews j2 hj2).1
    omega
  · intro j hj
    have hlen : 0 < (f :: fs).length := by simp
    rcases mem_markCompressing_cases hj with ⟨j0, hj0, hid0, rfl⟩ | ⟨hjl, _⟩
    · show j0.id < s.nextId + (f :: fs).length
      rcases List.mem_append.mp hj0 with hj0 | hj0
      · have := hInv.idsLt j0 hj0
        omega
      · exact (hnews j0 hj0).2.1
    · show j.id < s.nextId + (f :: fs).length
      rcases List.mem_append.mp hjl with hjl | hjl
      · have := hInv.idsLt j hjl
        omega
      · exact (hnews j hjl).2.1
  · intro j hj
    rcases mem_markCompressing_cases hj with ⟨j0, hj0, hid0, rfl⟩ | ⟨hjl, _⟩
    · rcases List.mem_append.mp hj0 with hj0 | hj0
      · have := hInv.idsLt j0 hj0
        omega
      · have hu := (hnews j0 hj0).2.2.2
        constructor
        · intro hsome
          rw [show ({ j0 with status := Status.compressing } :
              VideoFile).compressedUrl = j0.compressedUrl from rfl, hu] at hsome
          cases hsome
        · intro hd
          cases hd
    · rcases List.mem_append.mp hjl with hjl | hjl
      · exact hInv.urlIff j hjl
      · have hu := (hnews j hjl).2.2.2
        have hp := (hnews j hjl).2.2.1
        constructor
        · intro hsome
          rw [hu] at hsome
          cases hsome
        · intro hd
          rw [hd] at hp
          cases hp
  · intro j hj hc
    rcases mem_markCompressing_cases hj with ⟨j0, hj0, hid0, rfl⟩ | ⟨hjl, hne⟩
    · refine ⟨_, List.mem_singleton.mpr rfl, ?_, by simp [earlyPhase]⟩
      exact hid0
    · rcases List.mem_append.mp hjl with hjl | hjl
      · obtain ⟨t, ht, _, _⟩ := hInv.comprCur j hjl hc
        rw [hT] at ht
        cases ht
      · have hp := (hnews j hjl).2.2.1
        rw [hc] at hp
        cases hp
  · intro t' ht' j hj hid
    rw [List.mem_singleton] at ht'
    subst ht'
    have hid' : j.id = s.nextId := hid
    constructor
    · intro _
      rcases mem_markCompressing_cases hj with ⟨j0, hj0, hid0, rfl⟩ | ⟨hjl, hne⟩
      · rfl
      · exact absurd hid' hne
    · intro hL'
      exact absurd hL' (by simp [latePhase])
  · intro t' ht'
    rw [List.mem_singleton] at ht'
    subst ht'
    exact mkJobs_id_nodup s.nextId s.nextHandle (f :: fs)
  · intro t' ht' w hw j hj hid
    rw [List.mem_singleton] at ht'
    subst ht'
    have hid' : j.id = w.id := hid
    have hwlb : s.nextId + 1 ≤ w.id := (hrest w hw).1
    rcases mem_markCompressing_cases hj with ⟨j0, hj0, hid0, rfl⟩ | ⟨hjl, hne⟩
    · exfalso
      have : j0.id = w.id := hid'
      omega
    · rcases List.mem_append.mp hjl with hjl | hjl
      · have := hInv.idsLt j hjl
        omega
      · exact (hnews j hjl).2.2.1
  · intro t' ht' hp'
    rw [List.mem_singleton] at ht'
    subst ht'
    exact absurd hp' (by simp)
  · intro t' ht' hp'
    rw [List.mem_singleton] at ht'
    subst ht'
    exact absurd hp' (by simp)

/-- Preservation of the serial invariant by `handleFileSelect` when no
task is suspended. -/
theorem inv_handleFileSelect (s : AppState) (files : List File)
    (hT : s.tasks = []) (hInv : SerialInv s) :
    SerialInv (handleFileSelect s files) := by
  by_cases hl : s.loaded = true
  · have he : handleFileSelect s files =
        { s with message := "Please wait while FFmpeg loads..." } := by
      unfold handleFileSelect
      rw [if_pos hl]
    rw [he]
    exact ⟨hInv.oneTask, hInv.idsNodup, hInv.idsLt, hInv.urlIff, hInv.comprCur,
      hInv.curStatus, hInv.taskNodup, hInv.restPending, hInv.fsIn, hInv.fsOut⟩
  · cases files with
    | nil =>
        have he : handleFileSelect s [] = s := by
          unfold handleFileSelect
          rw [if_neg hl, show mkJobs s.nextId s.nextHandle [] = [] from rfl]
        rw [he]
        exact hInv
    | cons f fs =>
        have he : handleFileSelect s (f :: fs) =
            { s with
              videoFiles := markCompressing
                (s.videoFiles ++ mkJobs s.nextId s.nextHandle (f :: fs)) s.nextId
              activeCompressions := s.activeCompressions + 1
              tasks := s.tasks ++
                [⟨⟨s.nextId, f, formatSize f.size, "", .pending, none,
                   some s.nextHandle, none⟩, .cleanupIn,
                   mkJobs (s.nextId + 1) (s.nextHandle + 1) fs⟩]
              nextId := s.nextId + (f :: fs).length
              nextHandle := s.nextHandle + (f :: fs).length } := by
          unfold handleFileSelect
          rw [if_neg hl, show mkJobs s.nextId s.nextHandle (f :: fs) =
            { id := s.nextId, file := f, originalSize := formatSize f.size,
              compressedSize := "", status := .pending, errorMessage := none,
              originalUrl := some s.nextHandle, compressedUrl := none } ::
            mkJobs (s.nextId + 1) (s.nextHandle + 1) fs from rfl]
        rw [he, hT, List.nil_append]
        exact inv_submit s f fs hT hInv

/-- Preservation of the serial invariant by a drop gesture delivered
while no task is suspended. -/
theorem inv_drop (s : AppState) (files : List File)
    (hT : s.tasks = []) (hInv : SerialInv s) :
    SerialInv (handleDrop s files) := by
  unfold handleDrop
  split_ifs with h1 h2 h3
  · exact hInv
  · exact ⟨hInv.oneTask, hInv.idsNodup, hInv.idsLt, hInv.urlIff, hInv.comprCur,
      hInv.curStatus, hInv.taskNodup, hInv.restPending, hInv.fsIn, hInv.fsOut⟩
  · exact hInv
  · exact inv_handleFileSelect s files hT hInv

/-- The initial state satisfies the serial invariant. -/
theorem inv_init : SerialInv initState := by
  refine ⟨by simp [initState], by simp [initState], ?_, ?_, ?_, ?_, ?_, ?_, ?_, ?_⟩
  all_goals intro x hx
  all_goals cases hx

/-- Every state of a serial session satisfies the invariant. -/
theorem serialReach_inv (b : Backend) (s : AppState) (h : SerialReach b s) :
    SerialInv s := by
  induction h with
  | init => exact inv_init
  | loadStart s' _ ih =>
      exact ⟨ih.oneTask, ih.idsNodup, ih.idsLt, ih.urlIff, ih.comprCur,
        ih.curStatus, ih.taskNodup, ih.restPending, ih.fsIn, ih.fsOut⟩
  | loadDone s' _ ih =>
      exact ⟨ih.oneTask, ih.idsNodup, ih.idsLt, ih.urlIff, ih.comprCur,
        ih.curStatus, ih.taskNodup, ih.restPending, ih.fsIn, ih.fsOut⟩
  | drop s' files hT _ ih => exact inv_drop s' files hT ih
  | tick s' i _ ih => exact inv_tick b s' i ih

theorem countP_le_one (l : List VideoFile) (c : Nat)
    (hnd : (l.map VideoFile.id).Nodup)
    (h : ∀ j ∈ l, j.status = .compressing → j.id = c) :
    l.countP (fun j => j.status == Status.compressing) ≤ 1 := by
  induction l with
  | nil => simp
  | cons a l ih =>
      rw [List.countP_cons]
      have hnd' : (a.id :: l.map VideoFile.id).Nodup := by simpa using hnd
      by_cases ha : a.status = .compressing
      · have hz : l.countP (fun j => j.status == Status.compressing) = 0 := by
          rw [List.countP_eq_zero]
          intro j hj hjp
          have hjc : j.status = .compressing := by simpa using hjp
          have h1 := h j (List.mem_cons_of_mem a hj) hjc
          have h2 := h a (List.mem_cons_self a l) ha
          exact (List.nodup_cons.mp hnd').1
            (List.mem_map.mpr ⟨j, hj, by rw [h1, ← h2]⟩)
        simp [hz, ha]
      · have hle := ih (List.nodup_cons.mp hnd').2
          (fun j hj hc => h j (List.mem_cons_of_mem a hj) hc)
        have hpa : (a.status == Status.compressing) = false := by simp [ha]
        rw [hpa, if_neg (by simp)]
        omega

/-- Amended claim C1: in a serial session - drop gestures delivered
only while no transcode work is suspended, which is the only mode in
which the source serializes work - at most one job is in the
`compressing` state at every reachable instant.  The counterexample
`two_jobs_active` shows the bound fails as soon as two drop gestures
overlap: each gesture drives its own loop and the `activeCompressions`
counter (rendered as "Compressing N videos") then exceeds one. -/
theorem serial_at_most_one_active (b : Backend) (s : AppState)
    (h : SerialReach b s) :
    s.videoFiles.countP (fun j => j.status == Status.compressing) ≤ 1 := by
  have hInv := serialReach_inv b s h
  cases hT : s.tasks with
  | nil =>
      have hz : s.videoFiles.countP (fun j => j.status == Status.compressing)
          = 0 := by
        rw [List.countP_eq_zero]
        intro j hj hjp
        have hjc : j.status = .compressing := by simpa using hjp
        obtain ⟨t, ht, _, _⟩ := hInv.comprCur j hj hjc
        rw [hT] at ht
        cases ht
      omega
  | cons t ts =>
      cases ts with
      | cons t2 ts2 =>
          exact absurd hInv.oneTask
            (by rw [hT]; simp only [List.length_cons]; omega)
      | nil =>
          apply countP_le_one s.videoFiles t.current.id hInv.idsNodup
          intro j hj hc
          obtain ⟨t', ht', hid, _⟩ := hInv.comprCur j hj hc
          rw [hT, List.mem_singleton] at ht'
          subst ht'
          exact hid

/-- Claim C1 amended witness: `serial_at_most_one_active` on the serial
session load-start, load-done, drop of "v.mp4". -/
theorem serial_at_most_one_active_witness :
    ((applyEv bOK (applyEv bOK (applyEv bOK initState .loadStart) .loadDone)
      (.drop [vA])).videoFiles.countP
        (fun j => j.status == Status.compressing)) ≤ 1 :=
  serial_at_most_one_active bOK _
    (SerialReach.drop _ [vA] rfl
      (SerialReach.loadDone _ (SerialReach.loadStart _ SerialReach.init)))

/-- Amended claim C8: in a serial session the result preview handle of
every job is set if and only if the job's state is `done` - the handle
and the `done` state are assigned in one `setVideoFiles` update, and no
other update touches the handle.  The counterexample
`result_handle_outlives_done` shows the equivalence can break once
submissions overlap and their derived storage names collide: the final
`deleteFile` of a completed job then rejects and the outer catch
re-marks the job `error` while the spread keeps its handle. -/
theorem serial_result_handle_iff (b : Backend) (s : AppState)
    (h : SerialReach b s) :
    ∀ j ∈ s.videoFiles, (j.compressedUrl.isSome = true ↔ j.status = .done) :=
  (serialReach_inv b s h).urlIff

/-- Claim C8 amended witness: `serial_result_handle_iff` applied to the
single job of the serial session load-start, load-done, drop of
"v.mp4" (a `compressing` job with no handle). -/
theorem serial_result_handle_iff_witness :
    ((⟨0, vA, formatSize vA.size, "", .compressing, none, some 0, none⟩ :
        VideoFile).compressedUrl.isSome = true ↔
      (⟨0, vA, formatSize vA.size, "", .compressing, none, some 0, none⟩ :
        VideoFile).status = .done) :=
  serial_result_handle_iff bOK
    (applyEv bOK (applyEv bOK (applyEv bOK initState .loadStart) .loadDone)
      (.drop [vA]))
    (SerialReach.drop _ [vA] rfl
      (SerialReach.loadDone _ (SerialReach.loadStart _ SerialReach.init)))
    ⟨0, vA, formatSize vA.size, "", .compressing, none, some 0, none⟩
    (List.mem_singleton.mpr rfl)

/-! ## Concrete scenarios -/

/-- Claim C1 counterexample: after the session
load-start, load-done, drop of "v.mp4", drop of "w.mp4" - two drop
gestures with the first file's transcode still parked at its first
await - both tracked jobs are in the `compressing` state at the same
instant, so more than one Job is Active. -/
theorem two_jobs_active :
    ((applyTrace bOK initState
        [Ev.loadStart, Ev.loadDone, Ev.drop [vA], Ev.drop [vB]]).videoFiles.map
      (fun j => j.status)) = [Status.compressing, Status.compressing] := by
  decide

/-- Claim C2 counterexample: a file dropped after `load()` has set the
loading flag but before initialization completes is not recorded at
all - the job list stays empty and even the "Please wait" status text
is never written (the `!loaded` wrapper at App.tsx line 212 blocks the
call before `handleFileSelect` could set it); moreover the flag is
true at that instant and reverts to false when loading completes, so
it does not transition false → true once and stay. -/
theorem submission_during_load_dropped :
    (applyTrace bOK initState [Ev.loadStart, Ev.drop [vA]]).videoFiles = [] ∧
    (applyTrace bOK initState [Ev.loadStart, Ev.drop [vA]]).message = "" ∧
    (applyTrace bOK initState [Ev.loadStart, Ev.drop [vA]]).loaded = true ∧
    (applyTrace bOK initState [Ev.loadStart, Ev.drop [vA], Ev.loadDone]).loaded
      = false := by
  decide

/-- Claim C3 counterexample: when the backend invocation for "v.mp4"
fails, the run concludes (no task remains, the job is terminal) yet
the backend-internal storage still holds the job's input name - the
cleanup of App.tsx lines 163-165 sits inside the `try` and is skipped
by the failure, so storage accumulates. -/
theorem failed_job_storage_not_purged :
    (steps bFail (handleFileSelect initState [vA]) 6).fs = ["v.mp4"] ∧
    (steps bFail (handleFileSelect initState [vA]) 6).tasks = [] := by
  decide

/-- Claim C4 counterexample: a job whose backend transcode succeeds but
whose compressed-preview creation fails ends in the `error` state with
message "Error creating compressed video preview" (App.tsx lines
148-161), not in the `done` state the claim requires. -/
theorem preview_failure_marks_error :
    ((steps bNoPrev (handleFileSelect initState [vA]) 10).videoFiles.map
      (fun j => (j.status, j.errorMessage, j.compressedUrl))) =
    [(Status.error, some "Error creating compressed video preview", none)] := by
  decide

/-- Claim C9: a submission containing at least one file larger than
the `maxSize` ceiling is rejected as a whole before any job is
created: the console error is the only state change, so zero new jobs
are produced and the job queue (and every other field) is exactly as
it was - no partial acceptance within one gesture. -/
theorem oversize_rejected (s : AppState) (files : List File) (f : File)
    (hf : f ∈ files) (hover : maxBytes < f.size) :
    handleDrop s files =
      { s with consoleLog := s.consoleLog ++ ["File size exceeds limit"] } := by
  have hne : files.length ≠ 0 := by
    cases files with
    | nil => cases hf
    | cons a l => simp
  have hany : files.any (fun f => decide (maxBytes < f.size)) = true := by
    rw [List.any_eq_true]
    exact ⟨f, hf, by simp [hover]⟩
  simp [handleDrop, hne, hany]

/-- Claim C9 witness: `oversize_rejected` on a fresh session for a
single 105-megabyte file. -/
theorem oversize_rejected_witness :
    handleDrop initState [⟨"big.mp4", 110100480⟩] =
      { initState with consoleLog := initState.consoleLog ++
          ["File size exceeds limit"] } :=
  oversize_rejected initState [⟨"big.mp4", 110100480⟩] ⟨"big.mp4", 110100480⟩
    (by simp) (by norm_num [maxBytes])

/-- Amended claim C2: a submission that arrives while the loading flag
is set is not recorded at all - the job list and the task list are
left unchanged (the counterexample `submission_during_load_dropped`
shows no job is queued and even the status text stays empty, because
the `!loaded` wrapper blocks the call) - and the `loaded` flag is set
by `load()` at entry and cleared exactly once when initialization
completes, so the flag transitions false → true → false rather than
staying set. -/
theorem loading_gate :
    (∀ (s : AppState) (files : List File), s.loaded = true →
        (handleDrop s files).videoFiles = s.videoFiles ∧
        (handleDrop s files).tasks = s.tasks) ∧
    (∀ (b : Backend) (s : AppState), (applyEv b s .loadStart).loaded = true) ∧
    (∀ (b : Backend) (s : AppState), (applyEv b s .loadDone).loaded = false) ∧
    initState.loaded = false := by
  refine ⟨?_, fun _ _ => rfl, fun _ _ => rfl, rfl⟩
  intro s files hl
  unfold handleDrop
  split_ifs with h1 h2
  · exact ⟨rfl, rfl⟩
  · exact ⟨rfl, rfl⟩
  · exact ⟨rfl, rfl⟩

/-- Claim C2 amended witness: `loading_gate` evaluated on the state
right after `load()` has started, for a one-file submission. -/
theorem loading_gate_witness :
    (handleDrop (applyEv bOK initState .loadStart) [vA]).videoFiles =
        (applyEv bOK initState .loadStart).videoFiles ∧
    (handleDrop (applyEv bOK initState .loadStart) [vA]).tasks =
        (applyEv bOK initState .loadStart).tasks :=
  loading_gate.1 (applyEv bOK initState .loadStart) [vA] rfl

/-- Claim C8 counterexample: two overlapping submissions of files named
"v.mp4" reach a state in which the first job is `error` yet still
carries its preview handle: the first job completes (`done` with a
handle), the second submission's defensive cleanup deletes the shared
input name, and the first job's final `deleteFile` then rejects into
the outer catch, which re-marks the `done` job as `error` while the
spread keeps `compressedUrl` set - so a non-`done` job holds a result
handle. -/
theorem result_handle_outlives_done :
    ((applyTrace bOK initState
        [Ev.loadStart, Ev.loadDone, Ev.drop [vA], Ev.tick 0, Ev.tick 0,
         Ev.tick 0, Ev.tick 0, Ev.drop [vA], Ev.tick 1, Ev.tick 0]).videoFiles.map
      (fun j => (j.status, j.compressedUrl.isSome))) =
    [(Status.error, true), (Status.compressing, false)] := by
  decide

end VideoApp
